import Mathlib

/-!
# mqtt_iot_exporter: topic routing, authorization and the metric registry

A shallow embedding of the ingestion core of the exporter:

* `mqtt_schema.go`: the two topic patterns and the two message documents;
* `mqtt_auth.go`: `OnACLCheck`;
* `prometheus_exporter.go`: `parseMetricType`, `findSameMetricByNameAndLabels`,
  `labelsMapToLabelPairs`, the `/metrics` handler;
* `main.go`: `metricsDefineFn`, `metricsPushFn`, `mqttErrorHandlerWrapper`.

Library calls are modelled by what they are documented to do: `regexp` for the
two fixed patterns, `encoding/json` on the parsed JSON document, and
`strings.ToUpper`. The lock `allMetricsLock` appears in the event lists of the
section on lock discipline.

The global `allMetrics` map is passed explicitly: a handler takes the registry
and returns its Go `error` result together with the registry it leaves behind.
Pointers into the registry (`*MetricFamily`, `*Metric`) are never shared
between two entries, so in-place mutation through a pointer is modelled by
replacing the entry (an observation is addressed by its index in the family).
-/

namespace MqttIotExporter

/-! ## Go values -/

/-- A `float64` payload value, carried as the exact rational it denotes. The
handlers only store it; no arithmetic is performed on it. -/
abbrev Float64 := ℚ

/-- Go `map[string]V`: a finite map with distinct keys. The order of `entries`
carries no meaning (see `RangeOrder`). -/
abbrev GoMap (V : Type) := AList (fun _ : String => V)

/-- Tables of package `unicode` for runes outside ASCII: the upper-case mapping
used by `strings.ToUpper` and the case-folding representative used by
`encoding/json` when it matches object keys to struct fields. -/
structure UnicodeTables where
  upper : Char → Char
  fold : Char → Char

/-- Tables that leave every non-ASCII rune as it is. On ASCII input the tables
are never consulted. -/
def UnicodeTables.ascii : UnicodeTables := ⟨id, id⟩

/-- ASCII branch of `unicode.ToUpper` and of `json.foldName`. -/
def asciiUpper (c : Char) : Char :=
  if 'a' ≤ c ∧ c ≤ 'z' then Char.ofNat (c.toNat - 32) else c

/-- Rune-wise mapping: ASCII letters to upper case, other runes by the table. -/
def mapRunes (tbl : Char → Char) (s : String) : String :=
  String.mk (s.data.map fun c => if c.toNat < 128 then asciiUpper c else tbl c)

/-- Go `strings.ToUpper`. -/
def ToUpper (U : UnicodeTables) (s : String) : String := mapRunes U.upper s

/-- Go `json.foldName`: the case-folded form of an object key. -/
def foldName (U : UnicodeTables) (s : String) : String := mapRunes U.fold s

/-! ## JSON documents and `json.Unmarshal` -/

/-- A syntactically valid JSON text. A number literal is carried as the result
of `strconv.ParseFloat(lit, 64)`: `none` when the literal is out of range. -/
inductive Json where
  | null : Json
  | bool (b : Bool) : Json
  | num (f : Option Float64) : Json
  | str (s : String) : Json
  | arr (items : List Json) : Json
  | obj (members : List (String × Json)) : Json

/-- Errors of `json.Unmarshal`: the text is not valid JSON, or a value has the
wrong JSON type for the Go value it is decoded into. -/
inductive JsonError where
  | invalidJSON
  | unmarshalTypeError
  deriving DecidableEq, Repr

/-- Struct field an object key decodes into: the field with exactly that name,
otherwise the first field whose folded name equals the folded key. -/
def resolveField (U : UnicodeTables) (fields : List String) (key : String) : Option String :=
  if key ∈ fields then some key
  else fields.find? fun f => foldName U f == foldName U key

/-- Type `MetricDefinition` of `mqtt_schema.go`; a nil `*string` is `none`.
Field `Typ` is the Go field `Type`. -/
structure MetricDefinition where
  Help : Option String := none
  Typ : Option String := none
  Unit : Option String := none
  deriving DecidableEq, Repr

/-- Type `MetricPush` of `mqtt_schema.go`; a nil map is `none`. -/
structure MetricPush where
  Labels : Option (GoMap String) := none
  Value : Float64 := 0
  deriving DecidableEq

/-- Decoding a JSON value into a `*string` field. -/
def decodeStringPtr : Json → Except JsonError (Option String)
  | .null => .ok none
  | .str s => .ok (some s)
  | _ => .error .unmarshalTypeError

/-- Decoding a JSON value into an element of `map[string]string`; `null`
leaves the fresh element at its zero value. -/
def decodeMapElem : Json → Except JsonError String
  | .null => .ok ""
  | .str s => .ok s
  | _ => .error .unmarshalTypeError

/-- Decoding a JSON value into a `map[string]string` field holding `old`: an
object adds its members to the map already there (a new map when nil). -/
def decodeStringMap (old : Option (GoMap String)) : Json → Except JsonError (Option (GoMap String))
  | .null => .ok none
  | .obj members =>
    (members.foldlM (fun (m : GoMap String) (kv : String × Json) =>
        (decodeMapElem kv.2).map fun v => m.insert kv.1 v) (old.getD ∅)).map some
  | _ => .error .unmarshalTypeError

/-- Decoding a JSON value into a `float64` field holding `old`. -/
def decodeFloat64 (old : Float64) : Json → Except JsonError Float64
  | .null => .ok old
  | .num (some f) => .ok f
  | _ => .error .unmarshalTypeError

/-- One object member decoded into a `MetricDefinition`. -/
def unmarshalDefinitionMember (U : UnicodeTables) (d : MetricDefinition) (kv : String × Json) :
    Except JsonError MetricDefinition :=
  match resolveField U ["help", "type", "unit"] kv.1 with
  | none => .ok d
  | some f =>
    if f = "help" then (decodeStringPtr kv.2).map fun p => { d with Help := p }
    else if f = "type" then (decodeStringPtr kv.2).map fun p => { d with Typ := p }
    else (decodeStringPtr kv.2).map fun p => { d with Unit := p }

/-- One object member decoded into a `MetricPush`. -/
def unmarshalPushMember (U : UnicodeTables) (d : MetricPush) (kv : String × Json) :
    Except JsonError MetricPush :=
  match resolveField U ["labels", "value"] kv.1 with
  | none => .ok d
  | some f =>
    if f = "labels" then (decodeStringMap d.Labels kv.2).map fun m => { d with Labels := m }
    else (decodeFloat64 d.Value kv.2).map fun x => { d with Value := x }

/-- Call `json.Unmarshal(pk.Payload, &parsed)` for a zero `MetricDefinition`.
The payload is `none` when its bytes are not valid JSON. Members are decoded
in order, unknown keys are skipped, a field that is absent keeps its zero
value; the first type error is the error returned. -/
def json_Unmarshal_MetricDefinition (U : UnicodeTables) :
    Option Json → Except JsonError MetricDefinition
  | none => .error .invalidJSON
  | some .null => .ok {}
  | some (.obj members) => members.foldlM (unmarshalDefinitionMember U) {}
  | some _ => .error .unmarshalTypeError

/-- Call `json.Unmarshal(pk.Payload, &parsed)` for a zero `MetricPush`. -/
def json_Unmarshal_MetricPush (U : UnicodeTables) : Option Json → Except JsonError MetricPush
  | none => .error .invalidJSON
  | some .null => .ok {}
  | some (.obj members) => members.foldlM (unmarshalPushMember U) {}
  | some _ => .error .unmarshalTypeError

/-! ## Topic patterns (`mqtt_schema.go`) -/

/-- A literal of a pattern matched at the head of the input; the rest of the
input on success. -/
def dropLiteral : List Char → List Char → Option (List Char)
  | [], cs => some cs
  | _ :: _, [] => none
  | p :: ps, c :: cs => if p = c then dropLiteral ps cs else none

/-- Pattern `([^/]+)/` matched at the head of the input: the captured group
and the rest of the input. The group is the longest run without a slash; it
must be non-empty and a slash must follow it. -/
def matchSegment (cs : List Char) : Option (List Char × List Char) :=
  match cs.dropWhile (fun c => c != '/') with
  | [] => none
  | _ :: rest =>
    if cs.takeWhile (fun c => c != '/') = [] then none
    else some (cs.takeWhile (fun c => c != '/'), rest)

/-- Call `deviceIdFromTopicRegex.FindStringSubmatch` for the pattern
`^device/([^/]+)/`: the whole match and group 1. -/
def deviceIdFromTopicRegex (topic : String) : Option (String × String) :=
  (dropLiteral "device/".data topic.data).bind fun r1 =>
  (matchSegment r1).map fun g1 =>
    ("device/" ++ String.mk g1.1 ++ "/", String.mk g1.1)

/-- Call `deviceIdMetricNameRegex.FindStringSubmatch` for the pattern
`^device/([^/]+)/metrics/([^/]+)/`: the whole match, group 1 and group 2. -/
def deviceIdMetricNameRegex (topic : String) : Option (String × String × String) :=
  (dropLiteral "device/".data topic.data).bind fun r1 =>
  (matchSegment r1).bind fun g1 =>
  (dropLiteral "metrics/".data g1.2).bind fun r2 =>
  (matchSegment r2).map fun g2 =>
    ("device/" ++ String.mk g1.1 ++ "/metrics/" ++ String.mk g2.1 ++ "/",
      String.mk g1.1, String.mk g2.1)

/-! ## Authorization (`mqtt_auth.go`) -/

/-- The fields of `mqtt.Client` the hook reads. -/
structure Client where
  ID : String
  Username : String

/-- Method `IoTExporterAuthHook.OnConnectAuthenticate`. -/
def OnConnectAuthenticate (_cl : Client) : Bool := true

/-- Method `IoTExporterAuthHook.OnACLCheck`. -/
def OnACLCheck (cl : Client) (topic : String) (_write : Bool) : Bool :=
  match deviceIdFromTopicRegex topic with
  | none => false
  | some deviceIdParsed =>
    if deviceIdParsed.2 ≠ cl.Username then false else true

/-! ## The registry (`prometheus_exporter.go`) -/

/-- Enum `prometheus_dto.MetricType` (generated code of the dependency
`prometheus/client_model`, `metrics.pb.go`). -/
inductive MetricType where
  | COUNTER
  | GAUGE
  | SUMMARY
  | UNTYPED
  | HISTOGRAM
  | GAUGE_HISTOGRAM
  deriving DecidableEq, Repr

/-- Table `prometheus_dto.MetricType_value` of the same generated file: the
enum value for each enum name. -/
def MetricType_value (s : String) : Option MetricType :=
  if s = "COUNTER" then some .COUNTER
  else if s = "GAUGE" then some .GAUGE
  else if s = "SUMMARY" then some .SUMMARY
  else if s = "UNTYPED" then some .UNTYPED
  else if s = "HISTOGRAM" then some .HISTOGRAM
  else if s = "GAUGE_HISTOGRAM" then some .GAUGE_HISTOGRAM
  else none

/-- Table `prometheus_dto.MetricType_name` of the generated file: the enum name
of each enum value. -/
def MetricType_name : MetricType → String
  | .COUNTER => "COUNTER"
  | .GAUGE => "GAUGE"
  | .SUMMARY => "SUMMARY"
  | .UNTYPED => "UNTYPED"
  | .HISTOGRAM => "HISTOGRAM"
  | .GAUGE_HISTOGRAM => "GAUGE_HISTOGRAM"

/-- Type `prometheus_dto.LabelPair`; both pointers are always set here. -/
structure LabelPair where
  Name : String
  Value : String
  deriving DecidableEq, Repr

/-- Type `prometheus_dto.Metric`: the labels and the three value slots the
handlers write (`Gauge.Value`, `Counter.Value`, `Untyped.Value`); a nil slot
is `none`. -/
structure Metric where
  Label : List LabelPair := []
  Gauge : Option Float64 := none
  Counter : Option Float64 := none
  Untyped : Option Float64 := none
  deriving DecidableEq

/-- Type `prometheus_dto.MetricFamily`. Field `Typ` is the Go field `Type`. -/
structure MetricFamily where
  Name : Option String := none
  Help : Option String := none
  Typ : Option MetricType := none
  Metric : List Metric := []
  Unit : Option String := none
  deriving DecidableEq

/-- Variable `allMetrics`. -/
abbrev Registry := GoMap MetricFamily

/-- Function `parseMetricType`: the enum value, or the error carrying `s`. -/
def parseMetricType (s : String) : Except String MetricType :=
  match MetricType_value s with
  | some val => .ok val
  | none => .error s

/-- Index of the first element satisfying `p`: the element a Go `for ... range`
loop returns from first. -/
def findFirst {α : Type} (p : α → Bool) : List α → Option Nat
  | [] => none
  | x :: xs => if p x then some 0 else (findFirst p xs).map (· + 1)

/-- Body of the loop of `findSameMetricByNameAndLabels` for one metric: the
lengths agree and every stored pair is in the map with the same value. -/
def labelsMatch (labels : GoMap String) (metric : Metric) : Bool :=
  metric.Label.length == labels.entries.length &&
    metric.Label.all fun pair => decide (labels.lookup pair.Name = some pair.Value)

/-- Function `findSameMetricByNameAndLabels`; the returned `*Metric` is given
as its index in the family, nil as `none`. -/
def findSameMetricByNameAndLabels (allMetrics : Registry) (name : String)
    (labels : GoMap String) : Option Nat :=
  match allMetrics.lookup name with
  | none => none
  | some family => findFirst (labelsMatch labels) family.Metric

/-- The label pairs of a map, in the order of its entries. -/
def mapPairs (labels : GoMap String) : List LabelPair :=
  labels.entries.map fun e => ⟨e.1, e.2⟩

/-- The order in which one `for k, v := range labels` visits a map: some
rearrangement of its entries, chosen by the Go runtime. -/
structure RangeOrder where
  order : List LabelPair → List LabelPair
  perm : ∀ l, (order l).Perm l

/-- Range order that visits the entries as listed. -/
def RangeOrder.listed : RangeOrder := ⟨id, fun l => List.Perm.refl l⟩

/-- Range order that visits the entries in reverse. -/
def RangeOrder.reversed : RangeOrder := ⟨List.reverse, fun l => List.reverse_perm l⟩

/-- Function `labelsMapToLabelPairs`: one pair per map entry, in range order.
Each iteration has its own `k` and `v` (the loop semantics of Go 1.22 and
later), so `&k` and `&v` of one pair are not shared with the next. -/
def labelsMapToLabelPairs (ρ : RangeOrder) (labels : GoMap String) : List LabelPair :=
  ρ.order (mapPairs labels)

/-! ## The handlers (`main.go`) -/

/-- The `fmt.Errorf` results of the two handlers. -/
inductive HandlerError where
  | failedToParseMetricDefinition (err : JsonError)
  | metricDefinitionMustHaveAName
  | unknownMetricType (s : String)
  | failedToParseMetricPush (err : JsonError)
  | invalidTopic
  | unknownMetric (metricName : String)
  deriving DecidableEq, Repr

/-- Function `metricsDefineFn`: the returned error (`none` for nil) and the
registry afterwards. -/
def metricsDefineFn (U : UnicodeTables) (allMetrics : Registry) (topic : String)
    (payload : Option Json) : Option HandlerError × Registry :=
  match json_Unmarshal_MetricDefinition U payload with
  | .error err => (some (.failedToParseMetricDefinition err), allMetrics)
  | .ok parsed =>
    let metricName : String :=
      match deviceIdMetricNameRegex topic with
      | some parsedTopic => parsedTopic.2.2
      | none => ""
    if metricName = "" then (some .metricDefinitionMustHaveAName, allMetrics)
    else
      let family : MetricFamily :=
        match allMetrics.lookup metricName with
        | some family => family
        | none => { Metric := [] }
      let family := { family with Name := some metricName }
      let family := { family with Help := parsed.Help }
      match parsed.Typ with
      | some t =>
        match parseMetricType (ToUpper U t) with
        | .error err =>
          (some (.unknownMetricType err),
            allMetrics.insert metricName { family with Typ := none })
        | .ok ty =>
          (none, allMetrics.insert metricName
            { family with Typ := some ty, Unit := parsed.Unit })
      | none =>
        (none, allMetrics.insert metricName { family with Unit := parsed.Unit })

/-- The `switch metricType` of `metricsPushFn`. -/
def assignValue (metricType : MetricType) (value : Float64) (metric : Metric) : Metric :=
  match metricType with
  | .COUNTER => { metric with Counter := some value }
  | .GAUGE => { metric with Gauge := some value }
  | _ => { metric with Untyped := some value }

/-- Function `metricsPushFn`: the returned error (`none` for nil) and the
registry afterwards. -/
def metricsPushFn (U : UnicodeTables) (ρ : RangeOrder) (allMetrics : Registry)
    (topic : String) (payload : Option Json) : Option HandlerError × Registry :=
  match json_Unmarshal_MetricPush U payload with
  | .error err => (some (.failedToParseMetricPush err), allMetrics)
  | .ok parsed =>
    let labels : GoMap String :=
      match parsed.Labels with
      | some labels => labels
      | none => ∅
    match deviceIdMetricNameRegex topic with
    | none => (some .invalidTopic, allMetrics)
    | some parsedTopic =>
      let deviceId := parsedTopic.2.1
      let metricName := parsedTopic.2.2
      match allMetrics.lookup metricName with
      | none => (some (.unknownMetric metricName), allMetrics)
      | some family =>
        let labels := labels.insert "device_id" deviceId
        let found := findSameMetricByNameAndLabels allMetrics metricName labels
        let metrics : List Metric :=
          match found with
          | some _ => family.Metric
          | none => family.Metric ++ [{ Label := labelsMapToLabelPairs ρ labels }]
        let metric : Nat :=
          match found with
          | some i => i
          | none => family.Metric.length
        let metricType : MetricType :=
          match family.Typ with
          | some ty => ty
          | none => .UNTYPED
        (none, allMetrics.insert metricName
          { family with Metric := metrics.modify (assignValue metricType parsed.Value) metric })


/-- Function returned by `mqttErrorHandlerWrapper(fn)`: it runs the handler and
publishes the handler's error to the device; the registry is the one the
handler leaves. -/
def mqttErrorHandlerWrapper (fn : Registry → String → Option Json → Option HandlerError × Registry)
    (allMetrics : Registry) (topic : String) (payload : Option Json) : Registry :=
  (fn allMetrics topic payload).2

/-- A message delivered to one of the two subscriptions of `main`; a push
carries the range order its `labelsMapToLabelPairs` call will see. -/
inductive Message where
  | define (topic : String) (payload : Option Json)
  | push (ρ : RangeOrder) (topic : String) (payload : Option Json)

/-- Registry after the subscription handler has processed one message. -/
def deliver (U : UnicodeTables) (allMetrics : Registry) : Message → Registry
  | .define topic payload => mqttErrorHandlerWrapper (metricsDefineFn U) allMetrics topic payload
  | .push ρ topic payload => mqttErrorHandlerWrapper (metricsPushFn U ρ) allMetrics topic payload

/-- Registry reached from the empty one (`allMetrics` at process start) after
the messages have been processed in order. -/
def run (U : UnicodeTables) (msgs : List Message) : Registry :=
  msgs.foldl (deliver U) ∅

/-! ## Lock discipline of the three operations

Each operation is listed as the events it performs on `allMetricsLock` and on
the data the lock guards (the `allMetrics` map, the families and their
observation lists), in program order. -/

/-- An event on the lock or on the guarded data. -/
inductive RegistryEvent where
  | lock
  | unlock
  | rLock
  | rUnlock
  | read
  | write
  deriving DecidableEq, Repr

/-- Events of `metricsDefineFn`: nothing before line 43; then `Lock`, the
lookup of line 45, the writes of lines 46 to 59 that are reached, and the
deferred `Unlock`. -/
def metricsDefineFnEvents (U : UnicodeTables) (allMetrics : Registry) (topic : String)
    (payload : Option Json) : List RegistryEvent :=
  match json_Unmarshal_MetricDefinition U payload with
  | .error _ => []
  | .ok parsed =>
    let metricName : String :=
      match deviceIdMetricNameRegex topic with
      | some parsedTopic => parsedTopic.2.2
      | none => ""
    if metricName = "" then []
    else
      [.lock, .read]
        ++ (match allMetrics.lookup metricName with
            | some _ => []
            | none => [.write])
        ++ [.write, .write]
        ++ (match parsed.Typ with
            | some t =>
              match parseMetricType (ToUpper U t) with
              | .error _ => [.write]
              | .ok _ => [.write, .write]
            | none => [.write])
        ++ [.unlock]

/-- Events of `metricsPushFn`: the lookup of line 84, then, when the family
exists, `Lock` (line 89), the reads of `findSameMetricByNameAndLabels`, the
append of line 96 when nothing was found, the read of the type (line 100), the
write of the value slot and the deferred `Unlock`. -/
def metricsPushFnEvents (U : UnicodeTables) (allMetrics : Registry) (topic : String)
    (payload : Option Json) : List RegistryEvent :=
  match json_Unmarshal_MetricPush U payload with
  | .error _ => []
  | .ok parsed =>
    let labels : GoMap String :=
      match parsed.Labels with
      | some labels => labels
      | none => ∅
    match deviceIdMetricNameRegex topic with
    | none => []
    | some parsedTopic =>
      let deviceId := parsedTopic.2.1
      let metricName := parsedTopic.2.2
      .read ::
        (match allMetrics.lookup metricName with
          | none => []
          | some _ =>
            let labels := labels.insert "device_id" deviceId
            [.lock, .read, .read]
              ++ (match findSameMetricByNameAndLabels allMetrics metricName labels with
                  | some _ => []
                  | none => [.read, .write])
              ++ [.read, .write, .unlock])

/-- Events of the `/metrics` handler of `runPrometheusServer`: `RLock`, the
range over `allMetrics` in the gatherer, one read per family written out, and
the deferred `RUnlock`. -/
def metricsEndpointEvents (allMetrics : Registry) : List RegistryEvent :=
  [.rLock, .read] ++ allMetrics.entries.map (fun _ => RegistryEvent.read) ++ [.rUnlock]

/-- How the lock is held by the operation at a point of its event list. -/
inductive Held where
  | no
  | shared
  | exclusive
  deriving DecidableEq, Repr

/-- Whether every read in the event list happens while the operation holds the
lock and every write while it holds it exclusively, starting from `held`. -/
def lockDisciplined : Held → List RegistryEvent → Bool
  | _, [] => true
  | _, .lock :: es => lockDisciplined .exclusive es
  | _, .rLock :: es => lockDisciplined .shared es
  | _, .unlock :: es => lockDisciplined .no es
  | _, .rUnlock :: es => lockDisciplined .no es
  | h, .read :: es => h != .no && lockDisciplined h es
  | h, .write :: es => h == .exclusive && lockDisciplined h es

/-! ## Vocabulary of the properties -/

/-- A topic segment: not empty and without a slash. -/
def IsSegment (s : String) : Prop := s.data ≠ [] ∧ '/' ∉ s.data

instance (s : String) : Decidable (IsSegment s) := by
  unfold IsSegment; infer_instance

/-- Topic `device/D/metrics/M/push`. -/
def pushTopic (D M : String) : String := "device/" ++ D ++ "/metrics/" ++ M ++ "/push"

/-- Topic `device/D/metrics/M/define`. -/
def defineTopic (D M : String) : String := "device/" ++ D ++ "/metrics/" ++ M ++ "/define"

/-- Two stored label lists are equal as sets of key/value pairs. -/
def SameLabelSet (l₁ l₂ : List LabelPair) : Prop := l₁ ⊆ l₂ ∧ l₂ ⊆ l₁

instance (l₁ l₂ : List LabelPair) : Decidable (SameLabelSet l₁ l₂) := by
  unfold SameLabelSet; infer_instance

/-- No two observations of the family have equal label sets. -/
def NoDuplicateLabelSets (family : MetricFamily) : Prop :=
  family.Metric.Pairwise fun a b => ¬ SameLabelSet a.Label b.Label

instance (family : MetricFamily) : Decidable (NoDuplicateLabelSets family) := by
  unfold NoDuplicateLabelSets; infer_instance

/-- Every observation of the family stores a label set, that is, label pairs
with distinct keys. -/
def LabelKeysUnique (family : MetricFamily) : Prop :=
  ∀ m ∈ family.Metric, (m.Label.map LabelPair.Name).Nodup

instance (family : MetricFamily) : Decidable (LabelKeysUnique family) := by
  unfold LabelKeysUnique; infer_instance

/-- The stored label list is the label set `L` with `device_id` mapped to `D`:
it holds the pair `(device_id, D)`, no other pair for `device_id`, and for
every other key exactly the pairs of `L`. -/
def IsLabelSetOf (l : List LabelPair) (L : GoMap String) (D : String) : Prop :=
  ∀ k v, (⟨k, v⟩ : LabelPair) ∈ l ↔ if k = "device_id" then v = D else L.lookup k = some v

/-- Labels a push document supplies: the empty map when the member is absent. -/
def suppliedLabels (parsed : MetricPush) : GoMap String :=
  match parsed.Labels with
  | some labels => labels
  | none => ∅

/-- The value slot a push writes for a family type, as one of the three slots
of an observation. -/
def slotOf (ty : Option MetricType) (m : Metric) : Option Float64 :=
  match ty with
  | some .COUNTER => m.Counter
  | some .GAUGE => m.Gauge
  | _ => m.Untyped

/-- Observation list of a family after lines 92 to 112 of `metricsPushFn`. -/
def pushedMetrics (ρ : RangeOrder) (family : MetricFamily) (labels : GoMap String)
    (value : Float64) : List Metric :=
  let metrics : List Metric :=
    match findFirst (labelsMatch labels) family.Metric with
    | some _ => family.Metric
    | none => family.Metric ++ [{ Label := labelsMapToLabelPairs ρ labels }]
  let metric : Nat :=
    match findFirst (labelsMatch labels) family.Metric with
    | some i => i
    | none => family.Metric.length
  let metricType : MetricType :=
    match family.Typ with
    | some ty => ty
    | none => .UNTYPED
  metrics.modify (assignValue metricType value) metric

/-- Every family of the registry stores label sets (distinct keys) and no two
observations of a family have equal label sets. -/
def RegistryInv (reg : Registry) : Prop :=
  ∀ name family, reg.lookup name = some family →
    LabelKeysUnique family ∧ NoDuplicateLabelSets family

/-- The type switch of the testable properties as four handler calls on one
metric: define, push, define again, push again. The four returned errors and
the registry at the end. -/
def typeSwitchScenario (U : UnicodeTables) (ρ₁ ρ₂ : RangeOrder) (reg : Registry) (D M : String)
    (define₁ push₁ define₂ push₂ : Option Json) : List (Option HandlerError) × Registry :=
  let r₁ := metricsDefineFn U reg (defineTopic D M) define₁
  let r₂ := metricsPushFn U ρ₁ r₁.2 (pushTopic D M) push₁
  let r₃ := metricsDefineFn U r₂.2 (defineTopic D M) define₂
  let r₄ := metricsPushFn U ρ₂ r₃.2 (pushTopic D M) push₂
  ([r₁.1, r₂.1, r₃.1, r₄.1], r₄.2)

/-! ## Sample inputs -/

/-- A definition document with help, the given type token and a unit. -/
def sampleDefine (t : String) : Option Json :=
  some (.obj [("help", .str "room temperature"), ("type", .str t), ("unit", .str "celsius")])

/-- A definition document with an unrecognized type token, another help text
and another unit. -/
def sampleRedefine : Option Json :=
  some (.obj [("help", .str "outside"), ("type", .str "bogus"), ("unit", .str "fahrenheit")])

/-- A definition document that supplies a help text and no type token. -/
def sampleDefineNoType : Option Json :=
  some (.obj [("help", .str "outside")])

/-- A define followed by a push on the same metric: the two returned errors
and the registry at the end. -/
def defineThenPush (U : UnicodeTables) (ρ : RangeOrder) (reg : Registry) (D M : String)
    (define push : Option Json) : Option HandlerError × Option HandlerError × Registry :=
  let r₁ := metricsDefineFn U reg (defineTopic D M) define
  let r₂ := metricsPushFn U ρ r₁.2 (pushTopic D M) push
  (r₁.1, r₂.1, r₂.2)

/-- A push document with labels `a`, `b` in this order and the given value. -/
def samplePushAB (v : Float64) : Option Json :=
  some (.obj [("labels", .obj [("a", .str "1"), ("b", .str "2")]), ("value", .num (some v))])

/-- A push document with the same labels in the other order. -/
def samplePushBA (v : Float64) : Option Json :=
  some (.obj [("labels", .obj [("b", .str "2"), ("a", .str "1")]), ("value", .num (some v))])

/-- Label map decoded from `samplePushAB`. -/
def sampleLabelsAB : GoMap String := AList.insert "b" "2" (AList.insert "a" "1" ∅)

/-- Label map decoded from `samplePushBA`. -/
def sampleLabelsBA : GoMap String := AList.insert "a" "1" (AList.insert "b" "2" ∅)

/-- Family `temp` right after it was defined as a gauge. -/
def sampleFamily : MetricFamily :=
  { Name := some "temp", Help := some "room temperature", Typ := some .GAUGE,
    Metric := [], Unit := some "celsius" }

/-- Registry after `temp` was defined as a gauge. -/
def sampleRegistry : Registry :=
  (metricsDefineFn UnicodeTables.ascii ∅ (defineTopic "dev1" "temp") (sampleDefine "gauge")).2

/-- Observation stored by the push of `samplePushAB 5` from device `dev1`. -/
def sampleObservation : Metric :=
  { Label := [⟨"device_id", "dev1"⟩, ⟨"b", "2"⟩, ⟨"a", "1"⟩], Gauge := some 5 }

/-- Messages that define `temp` as a gauge and push `samplePushAB 5`. -/
def sampleMessages : List Message :=
  [.define (defineTopic "dev1" "temp") (sampleDefine "gauge"),
   .push RangeOrder.listed (pushTopic "dev1" "temp") (samplePushAB 5)]
/-! ## Topic patterns: what they accept -/

theorem dropLiteral_eq_some (p cs r : List Char) :
    dropLiteral p cs = some r ↔ cs = p ++ r := by
  induction p generalizing cs with
  | nil => simp [dropLiteral, eq_comm]
  | cons a p ih =>
    cases cs with
    | nil => simp [dropLiteral]
    | cons c cs =>
      by_cases h : a = c
      · subst h; simp [dropLiteral, ih]
      · simp [dropLiteral, h]
        intro h'; exact absurd h'.symm h

theorem takeWhile_noSlash (g r : List Char) (hg : '/' ∉ g) :
    (g ++ '/' :: r).takeWhile (fun c => c != '/') = g := by
  induction g with
  | nil => simp
  | cons a g ih =>
    have ha : a ≠ '/' := fun h => hg (by simp [h])
    have hg' : '/' ∉ g := fun h => hg (by simp [h])
    have hb : (a != '/') = true := by simp [ha]
    rw [List.cons_append, List.takeWhile_cons, hb]
    simp [ih hg']

theorem dropWhile_noSlash (g r : List Char) (hg : '/' ∉ g) :
    (g ++ '/' :: r).dropWhile (fun c => c != '/') = '/' :: r := by
  induction g with
  | nil => simp
  | cons a g ih =>
    have ha : a ≠ '/' := fun h => hg (by simp [h])
    have hg' : '/' ∉ g := fun h => hg (by simp [h])
    have hb : (a != '/') = true := by simp [ha]
    rw [List.cons_append, List.dropWhile_cons, hb]
    simp [ih hg']

theorem takeWhile_no_slash_mem (cs : List Char) :
    '/' ∉ cs.takeWhile (fun c => c != '/') := by
  intro h
  have := List.mem_takeWhile_imp h
  simp at this

theorem dropWhile_head_slash (cs : List Char) (c : Char) (rest : List Char)
    (h : cs.dropWhile (fun c => c != '/') = c :: rest) : c = '/' := by
  induction cs with
  | nil => simp at h
  | cons a cs ih =>
    by_cases ha : a = '/'
    · subst ha
      simp [List.dropWhile] at h
      exact h.1.symm
    · have hb : (a != '/') = true := by simp [ha]
      rw [List.dropWhile_cons, hb] at h
      exact ih h

theorem matchSegment_eq_some (cs g r : List Char) :
    matchSegment cs = some (g, r) ↔ g ≠ [] ∧ '/' ∉ g ∧ cs = g ++ '/' :: r := by
  constructor
  · intro h
    unfold matchSegment at h
    split at h
    · simp at h
    · rename_i c rest hd
      split at h
      · simp at h
      · rename_i hne
        simp only [Option.some.injEq, Prod.mk.injEq] at h
        obtain ⟨h1, h2⟩ := h
        subst h1 h2
        refine ⟨hne, takeWhile_no_slash_mem cs, ?_⟩
        have hc := dropWhile_head_slash cs c rest hd
        subst hc
        rw [← hd, List.takeWhile_append_dropWhile]
  · rintro ⟨hne, hns, rfl⟩
    unfold matchSegment
    rw [dropWhile_noSlash g r hns, takeWhile_noSlash g r hns]
    simp [hne]

theorem deviceIdFromTopicRegex_eq_some (topic whole dev : String) :
    deviceIdFromTopicRegex topic = some (whole, dev) ↔
      dev.data ≠ [] ∧ '/' ∉ dev.data ∧ whole = "device/" ++ dev ++ "/" ∧
        ∃ rest : String, topic = "device/" ++ dev ++ "/" ++ rest := by
  unfold deviceIdFromTopicRegex
  constructor
  · intro h
    simp only [Option.bind_eq_some, Option.map_eq_some'] at h
    obtain ⟨r1, h1, ⟨g, r⟩, h2, h3⟩ := h
    rw [dropLiteral_eq_some] at h1
    rw [matchSegment_eq_some] at h2
    obtain ⟨hne, hns, hr1⟩ := h2
    simp only [Prod.mk.injEq] at h3
    obtain ⟨hw, hd⟩ := h3
    subst hd
    refine ⟨hne, hns, hw.symm, ⟨String.mk r, ?_⟩⟩
    apply String.ext
    simp [String.data_append, h1, hr1]
  · rintro ⟨hne, hns, hw, rest, rfl⟩
    simp only [Option.bind_eq_some, Option.map_eq_some']
    refine ⟨dev.data ++ '/' :: rest.data, ?_, (dev.data, rest.data), ?_, ?_⟩
    · rw [dropLiteral_eq_some]; simp [String.data_append]
    · rw [matchSegment_eq_some]; exact ⟨hne, hns, rfl⟩
    · simp [hw]

/-! ## C1 -/

/-- C1. The per-topic access check permits exactly when device-id extraction on
the topic succeeds with a device id equal to the declared username, that is
exactly when the username is non-empty, has no slash, and the topic begins with
`device/`, the username and a slash; otherwise it denies. The write flag has no
influence on the result. -/
theorem OnACLCheck_permits_iff (cl : Client) (topic : String) (write : Bool) :
    (OnACLCheck cl topic write = true ↔
      (deviceIdFromTopicRegex topic).map (fun m => m.2) = some cl.Username) ∧
    (OnACLCheck cl topic write = true ↔
      cl.Username ≠ "" ∧ '/' ∉ cl.Username.data ∧
        ∃ rest : String, topic = "device/" ++ cl.Username ++ "/" ++ rest) ∧
    (OnACLCheck cl topic write = false ↔
      ¬ (cl.Username ≠ "" ∧ '/' ∉ cl.Username.data ∧
        ∃ rest : String, topic = "device/" ++ cl.Username ++ "/" ++ rest)) ∧
    OnACLCheck cl topic true = OnACLCheck cl topic false := by
  have key : OnACLCheck cl topic write = true ↔
      (deviceIdFromTopicRegex topic).map (fun m => m.2) = some cl.Username := by
    unfold OnACLCheck
    cases h : deviceIdFromTopicRegex topic with
    | none => simp
    | some m => by_cases hm : m.2 = cl.Username <;> simp [hm]
  have key2 : (deviceIdFromTopicRegex topic).map (fun m => m.2) = some cl.Username ↔
      cl.Username ≠ "" ∧ '/' ∉ cl.Username.data ∧
        ∃ rest : String, topic = "device/" ++ cl.Username ++ "/" ++ rest := by
    have hne : cl.Username ≠ "" ↔ cl.Username.data ≠ [] := by
      constructor
      · intro h hd; exact h (String.ext hd)
      · intro h hd; exact h (by rw [hd])
    constructor
    · intro h
      simp only [Option.map_eq_some'] at h
      obtain ⟨⟨w, d⟩, h1, h2⟩ := h
      simp only at h2
      subst h2
      rw [deviceIdFromTopicRegex_eq_some] at h1
      exact ⟨hne.mpr h1.1, h1.2.1, h1.2.2.2⟩
    · rintro ⟨h1, h2, h3⟩
      simp only [Option.map_eq_some']
      exact ⟨("device/" ++ cl.Username ++ "/", cl.Username),
        (deviceIdFromTopicRegex_eq_some _ _ _).mpr ⟨hne.mp h1, h2, rfl, h3⟩, rfl⟩
  refine ⟨key, key.trans key2, ?_, rfl⟩
  rw [← key2, ← key]
  simp


/-! ## Topics of the two subscriptions -/

theorem deviceIdMetricNameRegex_eq_some (topic whole dev name : String) :
    deviceIdMetricNameRegex topic = some (whole, dev, name) ↔
      IsSegment dev ∧ IsSegment name ∧
        whole = "device/" ++ dev ++ "/metrics/" ++ name ++ "/" ∧
        ∃ rest : String, topic = "device/" ++ dev ++ "/metrics/" ++ name ++ "/" ++ rest := by
  unfold deviceIdMetricNameRegex IsSegment
  constructor
  · intro h
    simp only [Option.bind_eq_some, Option.map_eq_some'] at h
    obtain ⟨r1, h1, ⟨g1, s1⟩, h2, r2, h3, ⟨g2, s2⟩, h4, h5⟩ := h
    rw [dropLiteral_eq_some] at h1 h3
    rw [matchSegment_eq_some] at h2 h4
    obtain ⟨hne1, hns1, hr1⟩ := h2
    obtain ⟨hne2, hns2, hr2⟩ := h4
    simp only [Prod.mk.injEq] at h5
    obtain ⟨hw, hd, hn⟩ := h5
    subst hd hn
    refine ⟨⟨hne1, hns1⟩, ⟨hne2, hns2⟩, hw.symm, ⟨String.mk s2, ?_⟩⟩
    apply String.ext
    simp only at h3
    simp [String.data_append, h1, hr1, h3, hr2]
  · rintro ⟨⟨hne1, hns1⟩, ⟨hne2, hns2⟩, hw, rest, rfl⟩
    simp only [Option.bind_eq_some, Option.map_eq_some']
    refine ⟨dev.data ++ '/' :: ("metrics/".data ++ (name.data ++ '/' :: rest.data)), ?_,
      (dev.data, "metrics/".data ++ (name.data ++ '/' :: rest.data)), ?_,
      name.data ++ '/' :: rest.data, ?_, (name.data, rest.data), ?_, ?_⟩
    · rw [dropLiteral_eq_some]; simp [String.data_append]
    · rw [matchSegment_eq_some]; exact ⟨hne1, hns1, rfl⟩
    · rw [dropLiteral_eq_some]
    · rw [matchSegment_eq_some]; exact ⟨hne2, hns2, rfl⟩
    · simp [hw]

theorem regex_pushTopic (D M : String) (hD : IsSegment D) (hM : IsSegment M) :
    deviceIdMetricNameRegex (pushTopic D M) =
      some ("device/" ++ D ++ "/metrics/" ++ M ++ "/", D, M) :=
  (deviceIdMetricNameRegex_eq_some _ _ _ _).mpr ⟨hD, hM, rfl, "push", by
    unfold pushTopic; rw [String.append_assoc _ "/" "push"]; rfl⟩

theorem regex_defineTopic (D M : String) (hD : IsSegment D) (hM : IsSegment M) :
    deviceIdMetricNameRegex (defineTopic D M) =
      some ("device/" ++ D ++ "/metrics/" ++ M ++ "/", D, M) :=
  (deviceIdMetricNameRegex_eq_some _ _ _ _).mpr ⟨hD, hM, rfl, "define", by
    unfold defineTopic; rw [String.append_assoc _ "/" "define"]; rfl⟩

theorem IsSegment.ne_empty {s : String} (h : IsSegment s) : s ≠ "" := by
  intro hs; subst hs; exact h.1 rfl

/-! ## The handlers, path by path -/

theorem metricsPushFn_of_family (U : UnicodeTables) (ρ : RangeOrder) (reg : Registry)
    (topic : String) (payload : Option Json) (parsed : MetricPush) (w D M : String)
    (family : MetricFamily)
    (hdec : json_Unmarshal_MetricPush U payload = .ok parsed)
    (htop : deviceIdMetricNameRegex topic = some (w, D, M))
    (hfam : reg.lookup M = some family) :
    metricsPushFn U ρ reg topic payload =
      (none, reg.insert M { family with
        Metric := pushedMetrics ρ family ((suppliedLabels parsed).insert "device_id" D)
          parsed.Value }) := by
  unfold metricsPushFn
  simp only [hdec, htop, hfam, findSameMetricByNameAndLabels, pushedMetrics, suppliedLabels]

theorem metricsPushFn_of_no_family (U : UnicodeTables) (ρ : RangeOrder) (reg : Registry)
    (topic : String) (payload : Option Json) (parsed : MetricPush) (w D M : String)
    (hdec : json_Unmarshal_MetricPush U payload = .ok parsed)
    (htop : deviceIdMetricNameRegex topic = some (w, D, M))
    (hfam : reg.lookup M = none) :
    metricsPushFn U ρ reg topic payload = (some (.unknownMetric M), reg) := by
  unfold metricsPushFn
  simp only [hdec, htop, hfam]

/-- Family a define works on: the one in the registry, or a fresh one, with
name and help already written (lines 45 to 52). -/
theorem metricsDefineFn_of_topic (U : UnicodeTables) (reg : Registry)
    (topic : String) (payload : Option Json) (parsed : MetricDefinition) (w D M : String)
    (hdec : json_Unmarshal_MetricDefinition U payload = .ok parsed)
    (htop : deviceIdMetricNameRegex topic = some (w, D, M)) :
    metricsDefineFn U reg topic payload =
      match parsed.Typ with
      | some t =>
        match MetricType_value (ToUpper U t) with
        | none =>
          (some (.unknownMetricType (ToUpper U t)),
            reg.insert M { (reg.lookup M).getD {} with
              Name := some M, Help := parsed.Help, Typ := none })
        | some ty =>
          (none, reg.insert M { (reg.lookup M).getD {} with
              Name := some M, Help := parsed.Help, Typ := some ty, Unit := parsed.Unit })
      | none =>
        (none, reg.insert M { (reg.lookup M).getD {} with
              Name := some M, Help := parsed.Help, Unit := parsed.Unit }) := by
  have hM : M ≠ "" :=
    ((deviceIdMetricNameRegex_eq_some _ _ _ _).mp htop).2.1.ne_empty
  unfold metricsDefineFn
  rw [hdec]
  simp only []
  rw [htop]
  simp only [hM, if_false, parseMetricType]
  cases parsed.Typ with
  | none => cases hl : reg.lookup M <;> simp only [Option.getD, hl]
  | some t =>
    cases hv : MetricType_value (ToUpper U t) <;> cases hl : reg.lookup M <;>
      simp only [Option.getD, hl, hv]

/-! ## Label sets -/

theorem mem_mapPairs (m : GoMap String) (k v : String) :
    (⟨k, v⟩ : LabelPair) ∈ mapPairs m ↔ m.lookup k = some v := by
  unfold mapPairs
  rw [← Option.mem_def, AList.mem_lookup_iff]
  constructor
  · intro h
    obtain ⟨e, he, heq⟩ := List.mem_map.mp h
    obtain ⟨a, b⟩ := e
    simp only [LabelPair.mk.injEq] at heq
    obtain ⟨rfl, rfl⟩ := heq
    exact he
  · intro h
    exact List.mem_map.mpr ⟨⟨k, v⟩, h, rfl⟩

theorem mapPairs_names (m : GoMap String) :
    (mapPairs m).map LabelPair.Name = m.keys := by
  unfold mapPairs AList.keys List.keys
  rw [List.map_map]
  rfl

theorem mapPairs_names_nodup (m : GoMap String) :
    ((mapPairs m).map LabelPair.Name).Nodup := by
  rw [mapPairs_names]; exact m.keys_nodup

theorem mapPairs_length (m : GoMap String) : (mapPairs m).length = m.entries.length := by
  unfold mapPairs; simp

/-- The loop body of `findSameMetricByNameAndLabels` accepts a stored label set
exactly when it is a rearrangement of the entries of the map. -/
theorem labelsMatch_iff_perm (labels : GoMap String) (metric : Metric)
    (hk : (metric.Label.map LabelPair.Name).Nodup) :
    labelsMatch labels metric = true ↔ metric.Label.Perm (mapPairs labels) := by
  unfold labelsMatch
  simp only [Bool.and_eq_true, beq_iff_eq, List.all_eq_true, decide_eq_true_eq]
  constructor
  · rintro ⟨hlen, hall⟩
    have hsub : metric.Label ⊆ mapPairs labels := by
      intro p hp
      obtain ⟨k, v⟩ := p
      exact (mem_mapPairs labels k v).mpr (hall _ hp)
    have hsp := List.subperm_of_subset (List.Nodup.of_map _ hk) hsub
    exact hsp.perm_of_length_le (by rw [mapPairs_length, hlen])
  · intro hp
    refine ⟨by rw [hp.length_eq, mapPairs_length], ?_⟩
    intro p hp'
    obtain ⟨k, v⟩ := p
    exact (mem_mapPairs labels k v).mp (hp.subset hp')

theorem sameLabelSet_iff_perm (l₁ l₂ : List LabelPair)
    (h₁ : (l₁.map LabelPair.Name).Nodup) (h₂ : (l₂.map LabelPair.Name).Nodup) :
    SameLabelSet l₁ l₂ ↔ l₁.Perm l₂ := by
  rw [List.perm_ext_iff_of_nodup (List.Nodup.of_map _ h₁) (List.Nodup.of_map _ h₂)]
  unfold SameLabelSet
  constructor
  · rintro ⟨h, h'⟩ a; exact ⟨fun x => h x, fun x => h' x⟩
  · intro h; exact ⟨fun a x => (h a).mp x, fun a x => (h a).mpr x⟩

theorem SameLabelSet.refl (l : List LabelPair) : SameLabelSet l l :=
  ⟨fun _ h => h, fun _ h => h⟩

theorem SameLabelSet.symm {l₁ l₂ : List LabelPair} (h : SameLabelSet l₁ l₂) :
    SameLabelSet l₂ l₁ := ⟨h.2, h.1⟩

theorem SameLabelSet.trans {l₁ l₂ l₃ : List LabelPair} (h : SameLabelSet l₁ l₂)
    (h' : SameLabelSet l₂ l₃) : SameLabelSet l₁ l₃ :=
  ⟨fun _ x => h'.1 (h.1 x), fun _ x => h.2 (h'.2 x)⟩

theorem sameLabelSet_of_perm {l₁ l₂ : List LabelPair} (h : l₁.Perm l₂) : SameLabelSet l₁ l₂ :=
  ⟨h.subset, h.symm.subset⟩

/-- The label set `L` with `device_id` mapped to `D`, in the words of the
property and as the map the handler builds. -/
theorem isLabelSetOf_iff (l : List LabelPair) (L : GoMap String) (D : String) :
    IsLabelSetOf l L D ↔ SameLabelSet l (mapPairs (L.insert "device_id" D)) := by
  have key : ∀ k v, (⟨k, v⟩ : LabelPair) ∈ mapPairs (L.insert "device_id" D) ↔
      if k = "device_id" then v = D else L.lookup k = some v := by
    intro k v
    rw [mem_mapPairs]
    by_cases hk : k = "device_id"
    · subst hk
      simp only [AList.lookup_insert, Option.some.injEq, if_true]
      exact eq_comm
    · simp only [AList.lookup_insert_ne hk, hk, if_false]
  unfold IsLabelSetOf SameLabelSet
  constructor
  · intro h
    refine ⟨fun p hp => ?_, fun p hp => ?_⟩
    · obtain ⟨k, v⟩ := p; exact (key k v).mpr ((h k v).mp hp)
    · obtain ⟨k, v⟩ := p; exact (h k v).mpr ((key k v).mp hp)
  · rintro ⟨h1, h2⟩ k v
    rw [← key]
    exact ⟨fun x => h1 x, fun x => h2 x⟩

theorem isLabelSetOf_of_perm (l : List LabelPair) (L : GoMap String) (D : String)
    (h : l.Perm (mapPairs (L.insert "device_id" D))) : IsLabelSetOf l L D :=
  (isLabelSetOf_iff l L D).mpr (sameLabelSet_of_perm h)

theorem labelsMapToLabelPairs_perm (ρ : RangeOrder) (labels : GoMap String) :
    (labelsMapToLabelPairs ρ labels).Perm (mapPairs labels) := ρ.perm _

theorem labelsMapToLabelPairs_names_nodup (ρ : RangeOrder) (labels : GoMap String) :
    ((labelsMapToLabelPairs ρ labels).map LabelPair.Name).Nodup :=
  (((labelsMapToLabelPairs_perm ρ labels).map LabelPair.Name).nodup_iff).mpr
    (mapPairs_names_nodup labels)

/-! ## The search and the update of `metricsPushFn` -/

theorem findFirst_eq_none {α : Type} (p : α → Bool) (l : List α) :
    findFirst p l = none ↔ ∀ x ∈ l, p x = false := by
  induction l with
  | nil => simp [findFirst]
  | cons a l ih =>
    unfold findFirst
    by_cases h : p a = true
    · simp [h]
    · simp only [h, Bool.false_eq_true, if_false, Option.map_eq_none', ih, List.mem_cons,
        forall_eq_or_imp]
      simp [h]

theorem findFirst_eq_some {α : Type} (p : α → Bool) (l : List α) (i : Nat) :
    findFirst p l = some i ↔
      (∃ x, l[i]? = some x ∧ p x = true) ∧ ∀ j < i, ∀ y, l[j]? = some y → p y = false := by
  induction l generalizing i with
  | nil => simp [findFirst]
  | cons a l ih =>
    unfold findFirst
    by_cases h : p a = true
    · simp only [h, if_true, Option.some.injEq]
      constructor
      · intro hi; subst hi; simp [h]
      · rintro ⟨_, hmin⟩
        cases i with
        | zero => rfl
        | succ i =>
          have := hmin 0 (Nat.succ_pos i) a (by simp)
          simp [h] at this
    · simp only [h, Bool.false_eq_true, if_false, Option.map_eq_some']
      constructor
      · rintro ⟨j, hj, rfl⟩
        rw [ih] at hj
        refine ⟨by simpa using hj.1, ?_⟩
        intro k hk y hy
        cases k with
        | zero => simp at hy; subst hy; simpa using h
        | succ k => exact hj.2 k (by omega) y (by simpa using hy)
      · rintro ⟨⟨x, hx, hpx⟩, hmin⟩
        cases i with
        | zero => simp at hx; subst hx; exact absurd hpx h
        | succ i =>
          refine ⟨i, (ih i).mpr ⟨⟨x, by simpa using hx, hpx⟩, ?_⟩, rfl⟩
          intro j hj y hy
          exact hmin (j + 1) (by omega) y (by simpa using hy)

theorem assignValue_Label (ty : MetricType) (v : Float64) (m : Metric) :
    (assignValue ty v m).Label = m.Label := by
  cases ty <;> rfl

theorem assignValue_slot (ty : Option MetricType) (v : Float64) (m : Metric) :
    slotOf ty (assignValue (match ty with | some t => t | none => .UNTYPED) v m) = some v := by
  cases ty with
  | none => rfl
  | some t => cases t <;> rfl

/-- The two ways a push leaves the observation list: the first stored
observation the search accepts has its slot written in place, or nothing is
accepted and a new observation is appended with its slot written. -/
theorem pushedMetrics_cases (ρ : RangeOrder) (family : MetricFamily) (labels : GoMap String)
    (v : Float64) :
    (∃ i o, findFirst (labelsMatch labels) family.Metric = some i ∧
        family.Metric[i]? = some o ∧ labelsMatch labels o = true ∧
        pushedMetrics ρ family labels v =
          family.Metric.set i (assignValue (match family.Typ with
            | some ty => ty | none => .UNTYPED) v o)) ∨
    (findFirst (labelsMatch labels) family.Metric = none ∧
        (∀ o ∈ family.Metric, labelsMatch labels o = false) ∧
        pushedMetrics ρ family labels v =
          family.Metric ++ [assignValue (match family.Typ with
            | some ty => ty | none => .UNTYPED) v
              { Label := labelsMapToLabelPairs ρ labels }]) := by
  cases hf : findFirst (labelsMatch labels) family.Metric with
  | none =>
    right
    refine ⟨rfl, (findFirst_eq_none _ _).mp hf, ?_⟩
    unfold pushedMetrics
    simp only [hf]
    rw [List.modify_eq_set_get?]
    simp
  | some i =>
    left
    obtain ⟨⟨o, ho, hp⟩, _⟩ := (findFirst_eq_some _ _ _).mp hf
    refine ⟨i, o, rfl, ho, hp, ?_⟩
    unfold pushedMetrics
    simp only [hf]
    rw [List.modify_eq_set_get?]
    simp [ho]

/-! ## The registry invariant -/

theorem map_set_same {α β : Type} (f : α → β) (l : List α) (i : Nat) (o o' : α)
    (h : l[i]? = some o) (hf : f o' = f o) : (l.set i o').map f = l.map f := by
  apply List.ext_getElem?
  intro j
  simp only [List.getElem?_map, List.getElem?_set]
  by_cases hij : i = j
  · subst hij
    have hlt : i < l.length := by
      by_contra hc
      rw [List.getElem?_eq_none (by omega)] at h
      exact absurd h (by simp)
    simp [hlt, h, hf]
  · simp [hij]

theorem labelKeysUnique_iff (family : MetricFamily) :
    LabelKeysUnique family ↔
      ∀ l ∈ family.Metric.map Metric.Label, (l.map LabelPair.Name).Nodup := by
  unfold LabelKeysUnique
  simp

theorem noDuplicateLabelSets_iff (family : MetricFamily) :
    NoDuplicateLabelSets family ↔
      (family.Metric.map Metric.Label).Pairwise fun a b => ¬ SameLabelSet a b := by
  unfold NoDuplicateLabelSets
  rw [List.pairwise_map]

theorem pushedMetrics_labels (ρ : RangeOrder) (family : MetricFamily) (labels : GoMap String)
    (v : Float64) :
    ((pushedMetrics ρ family labels v).map Metric.Label = family.Metric.map Metric.Label ∧
        (pushedMetrics ρ family labels v).length = family.Metric.length ∧
        ∃ o ∈ family.Metric, labelsMatch labels o = true) ∨
    ((pushedMetrics ρ family labels v).map Metric.Label =
        family.Metric.map Metric.Label ++ [labelsMapToLabelPairs ρ labels] ∧
      ∀ o ∈ family.Metric, labelsMatch labels o = false) := by
  rcases pushedMetrics_cases ρ family labels v with ⟨i, o, _, ho, hp, heq⟩ | ⟨_, hall, heq⟩
  · left
    rw [heq]
    exact ⟨map_set_same _ _ _ _ _ ho (assignValue_Label _ _ _), by simp,
      o, List.mem_iff_getElem?.mpr ⟨i, ho⟩, hp⟩
  · right
    rw [heq]
    exact ⟨by simp [assignValue_Label], hall⟩

theorem pushedMetrics_inv (ρ : RangeOrder) (family : MetricFamily) (labels : GoMap String)
    (v : Float64) (hk : LabelKeysUnique family) (hn : NoDuplicateLabelSets family) :
    LabelKeysUnique { family with Metric := pushedMetrics ρ family labels v } ∧
    NoDuplicateLabelSets { family with Metric := pushedMetrics ρ family labels v } := by
  rw [labelKeysUnique_iff, noDuplicateLabelSets_iff]
  rw [labelKeysUnique_iff] at hk
  rw [noDuplicateLabelSets_iff] at hn
  rcases pushedMetrics_labels ρ family labels v with ⟨heq, _, _⟩ | ⟨heq, hall⟩
  · simp only [heq]
    exact ⟨hk, hn⟩
  · simp only [heq]
    refine ⟨?_, ?_⟩
    · intro l hl
      rcases List.mem_append.mp hl with h | h
      · exact hk l h
      · simp only [List.mem_singleton] at h
        subst h
        exact labelsMapToLabelPairs_names_nodup ρ labels
    · rw [List.pairwise_append]
      refine ⟨hn, List.pairwise_singleton _ _, ?_⟩
      intro a ha b hb
      simp only [List.mem_singleton] at hb
      subst hb
      obtain ⟨o, ho, rfl⟩ := List.mem_map.mp ha
      intro hs
      have hko := hk o.Label ha
      have hperm : o.Label.Perm (mapPairs labels) :=
        ((sameLabelSet_iff_perm _ _ hko (labelsMapToLabelPairs_names_nodup ρ labels)).mp hs).trans
          (labelsMapToLabelPairs_perm ρ labels)
      have := (labelsMatch_iff_perm labels o hko).mpr hperm
      rw [hall o ho] at this
      exact absurd this (by simp)

/-- What a define leaves in the registry: nothing new, or the entry of one
metric replaced by a family with the observation list it had (none when the
family is new). -/
theorem metricsDefineFn_registry (U : UnicodeTables) (reg : Registry) (topic : String)
    (payload : Option Json) :
    (metricsDefineFn U reg topic payload).2 = reg ∨
    ∃ M family, (metricsDefineFn U reg topic payload).2 = reg.insert M family ∧
      family.Metric = ((reg.lookup M).getD {}).Metric := by
  cases hdec : json_Unmarshal_MetricDefinition U payload with
  | error e => left; unfold metricsDefineFn; rw [hdec]
  | ok parsed =>
    cases htop : deviceIdMetricNameRegex topic with
    | none => left; unfold metricsDefineFn; rw [hdec]; simp only []; rw [htop]; simp
    | some p =>
      obtain ⟨w, D, M⟩ := p
      right
      rw [metricsDefineFn_of_topic U reg topic payload parsed w D M hdec htop]
      cases parsed.Typ with
      | none => exact ⟨M, _, rfl, rfl⟩
      | some t =>
        simp only []
        cases MetricType_value (ToUpper U t) with
        | none => exact ⟨M, _, rfl, rfl⟩
        | some ty => exact ⟨M, _, rfl, rfl⟩

/-- What a push leaves in the registry: nothing new, or the entry of one
existing family replaced by the family with its observation list updated. -/
theorem metricsPushFn_registry (U : UnicodeTables) (ρ : RangeOrder) (reg : Registry)
    (topic : String) (payload : Option Json) :
    (metricsPushFn U ρ reg topic payload).2 = reg ∨
    ∃ M family labels v, reg.lookup M = some family ∧
      (metricsPushFn U ρ reg topic payload).2 =
        reg.insert M { family with Metric := pushedMetrics ρ family labels v } := by
  cases hdec : json_Unmarshal_MetricPush U payload with
  | error e => left; unfold metricsPushFn; rw [hdec]
  | ok parsed =>
    cases htop : deviceIdMetricNameRegex topic with
    | none => left; unfold metricsPushFn; rw [hdec]; simp only []; rw [htop]
    | some p =>
      obtain ⟨w, D, M⟩ := p
      cases hfam : reg.lookup M with
      | none =>
        left
        rw [metricsPushFn_of_no_family U ρ reg topic payload parsed w D M hdec htop hfam]
      | some family =>
        right
        rw [metricsPushFn_of_family U ρ reg topic payload parsed w D M family hdec htop hfam]
        exact ⟨M, family, _, _, hfam, rfl⟩

theorem registryInv_insert (reg : Registry) (M : String) (family : MetricFamily)
    (h : RegistryInv reg) (hk : LabelKeysUnique family) (hn : NoDuplicateLabelSets family) :
    RegistryInv (reg.insert M family) := by
  intro name fam hl
  by_cases hname : name = M
  · subst hname
    rw [AList.lookup_insert] at hl
    cases hl
    exact ⟨hk, hn⟩
  · rw [AList.lookup_insert_ne hname] at hl
    exact h name fam hl

theorem registryInv_empty : RegistryInv ∅ := by
  intro name fam hl
  simp at hl

theorem registryInv_deliver (U : UnicodeTables) (reg : Registry) (msg : Message)
    (h : RegistryInv reg) : RegistryInv (deliver U reg msg) := by
  cases msg with
  | define topic payload =>
    simp only [deliver, mqttErrorHandlerWrapper]
    rcases metricsDefineFn_registry U reg topic payload with heq | ⟨M, family, heq, hm⟩
    · rw [heq]; exact h
    · rw [heq]
      cases hl : reg.lookup M with
      | none =>
        rw [hl] at hm
        apply registryInv_insert _ _ _ h
        · intro m hmem; rw [hm] at hmem; simp at hmem
        · unfold NoDuplicateLabelSets; rw [hm]; simp
      | some fam0 =>
        rw [hl] at hm
        obtain ⟨hk, hn⟩ := h M fam0 hl
        apply registryInv_insert _ _ _ h
        · intro m hmem; rw [hm] at hmem; exact hk m hmem
        · unfold NoDuplicateLabelSets; rw [hm]; exact hn
  | push ρ topic payload =>
    simp only [deliver, mqttErrorHandlerWrapper]
    rcases metricsPushFn_registry U ρ reg topic payload with heq | ⟨M, family, labels, v, hl, heq⟩
    · rw [heq]; exact h
    · rw [heq]
      obtain ⟨hk, hn⟩ := h M family hl
      obtain ⟨hk', hn'⟩ := pushedMetrics_inv ρ family labels v hk hn
      exact registryInv_insert _ _ _ h hk' hn'

theorem registryInv_foldl (U : UnicodeTables) (msgs : List Message) (reg : Registry)
    (h : RegistryInv reg) : RegistryInv (msgs.foldl (deliver U) reg) := by
  induction msgs generalizing reg with
  | nil => exact h
  | cons msg msgs ih => exact ih _ (registryInv_deliver U reg msg h)

theorem registryInv_run (U : UnicodeTables) (msgs : List Message) : RegistryInv (run U msgs) :=
  registryInv_foldl U msgs ∅ registryInv_empty

/-! ## The observation a push writes -/

theorem index_unique_of_noDuplicate (family : MetricFamily) (hn : NoDuplicateLabelSets family)
    (i j : Nat) (a b : Metric) (hi : family.Metric[i]? = some a)
    (hj : family.Metric[j]? = some b) (hs : SameLabelSet a.Label b.Label) : i = j := by
  unfold NoDuplicateLabelSets at hn
  rw [List.pairwise_iff_getElem] at hn
  obtain ⟨hi', hia⟩ := List.getElem?_eq_some.mp hi
  obtain ⟨hj', hjb⟩ := List.getElem?_eq_some.mp hj
  rcases Nat.lt_trichotomy i j with h | h | h
  · exact absurd (by rw [hia, hjb]; exact hs) (hn i j hi' hj' h)
  · exact h
  · exact absurd (by rw [hia, hjb]; exact hs.symm) (hn j i hj' hi' h)

/-- The observation a push writes, for a family that stores label sets: it is
at one index of the new list, every other index is as before, its labels are a
rearrangement of the map the handler built, and it is the old observation at
that index (or a fresh one at the end) with the value assigned. -/
theorem pushedMetrics_target (ρ : RangeOrder) (family : MetricFamily) (labels : GoMap String)
    (v : Float64) (hk : LabelKeysUnique family) :
    ∃ i old, (pushedMetrics ρ family labels v)[i]? =
        some (assignValue (match family.Typ with | some ty => ty | none => .UNTYPED) v old) ∧
      old.Label.Perm (mapPairs labels) ∧
      (∀ j, j ≠ i → (pushedMetrics ρ family labels v)[j]? = family.Metric[j]?) ∧
      ((family.Metric[i]? = some old ∧
          (pushedMetrics ρ family labels v).length = family.Metric.length) ∨
        (i = family.Metric.length ∧ old = { Label := labelsMapToLabelPairs ρ labels } ∧
          (pushedMetrics ρ family labels v).length = family.Metric.length + 1 ∧
          ∀ o ∈ family.Metric, labelsMatch labels o = false)) := by
  rcases pushedMetrics_cases ρ family labels v with ⟨i, o, _, ho, hp, heq⟩ | ⟨_, hall, heq⟩
  · have hlt : i < family.Metric.length := (List.getElem?_eq_some.mp ho).1
    refine ⟨i, o, ?_, ?_, ?_, Or.inl ⟨ho, by rw [heq]; simp⟩⟩
    · rw [heq, List.getElem?_set]; simp [hlt]
    · exact (labelsMatch_iff_perm labels o (hk o (List.mem_iff_getElem?.mpr ⟨i, ho⟩))).mp hp
    · intro j hj
      rw [heq, List.getElem?_set]
      simp [Ne.symm hj]
  · refine ⟨family.Metric.length, { Label := labelsMapToLabelPairs ρ labels }, ?_, ?_, ?_,
      Or.inr ⟨rfl, rfl, by rw [heq]; simp, hall⟩⟩
    · rw [heq]; simp
    · exact labelsMapToLabelPairs_perm ρ labels
    · intro j hj
      rw [heq]
      rcases Nat.lt_or_gt_of_ne hj with h | h
      · rw [List.getElem?_append_left h]
      · rw [List.getElem?_eq_none (by simp; omega), List.getElem?_eq_none (by omega)]

/-- A push whose label map is the label set of a stored observation writes
that observation in place. -/
theorem pushedMetrics_of_existing (ρ : RangeOrder) (family : MetricFamily)
    (labels : GoMap String) (v : Float64) (hk : LabelKeysUnique family)
    (hn : NoDuplicateLabelSets family) (o : Metric) (ho : o ∈ family.Metric)
    (hs : SameLabelSet o.Label (mapPairs labels)) :
    ∃ i, family.Metric[i]? = some o ∧
      pushedMetrics ρ family labels v =
        family.Metric.set i (assignValue (match family.Typ with
          | some ty => ty | none => .UNTYPED) v o) := by
  have hmo : labelsMatch labels o = true :=
    (labelsMatch_iff_perm labels o (hk o ho)).mpr
      ((sameLabelSet_iff_perm _ _ (hk o ho) (mapPairs_names_nodup labels)).mp hs)
  rcases pushedMetrics_cases ρ family labels v with ⟨i, o', _, ho', hp, heq⟩ | ⟨_, hall, _⟩
  · obtain ⟨j, hj⟩ := List.mem_iff_getElem?.mp ho
    have hko' := hk o' (List.mem_iff_getElem?.mpr ⟨i, ho'⟩)
    have hs' : SameLabelSet o'.Label o.Label :=
      (sameLabelSet_of_perm ((labelsMatch_iff_perm labels o' hko').mp hp)).trans hs.symm
    have hij := index_unique_of_noDuplicate family hn i j o' o ho' hj hs'
    subst hij
    rw [ho'] at hj
    cases hj
    exact ⟨i, ho', heq⟩
  · rw [hall o ho] at hmo
    exact absurd hmo (by simp)

theorem lookup_perm_entries (L₁ L₂ : GoMap String) (h : L₁.entries.Perm L₂.entries)
    (k : String) : L₁.lookup k = L₂.lookup k :=
  AList.perm_lookup h

theorem isLabelSetOf_congr (l : List LabelPair) (L₁ L₂ : GoMap String) (D : String)
    (h : L₁.entries.Perm L₂.entries) : IsLabelSetOf l L₁ D ↔ IsLabelSetOf l L₂ D := by
  unfold IsLabelSetOf
  simp only [lookup_perm_entries L₁ L₂ h]

/-! ## C4 -/

/-- C4. When the registry has no family named `M`, a push on the topic
`device/D/metrics/M/push` with a payload that decodes fails with the
unknown-metric error and leaves the registry exactly as it was. -/
theorem push_before_define_fails (U : UnicodeTables) (ρ : RangeOrder) (reg : Registry)
    (D M : String) (payload : Option Json) (parsed : MetricPush)
    (hD : IsSegment D) (hM : IsSegment M)
    (hdec : json_Unmarshal_MetricPush U payload = .ok parsed)
    (hno : reg.lookup M = none) :
    metricsPushFn U ρ reg (pushTopic D M) payload = (some (.unknownMetric M), reg) :=
  metricsPushFn_of_no_family U ρ reg _ payload parsed _ D M hdec (regex_pushTopic D M hD hM) hno

/-- Witness for C4: a push of 5 with labels on the empty registry. -/
theorem push_before_define_fails_witness :
    (IsSegment "dev1" ∧ IsSegment "temp") ∧
    json_Unmarshal_MetricPush UnicodeTables.ascii
        (some (.obj [("labels", .obj [("room", .str "a")]), ("value", .num (some 5))])) =
      .ok ⟨some (AList.insert "room" "a" ∅), 5⟩ ∧
    metricsPushFn UnicodeTables.ascii RangeOrder.listed ∅ (pushTopic "dev1" "temp")
        (some (.obj [("labels", .obj [("room", .str "a")]), ("value", .num (some 5))])) =
      (some (.unknownMetric "temp"), ∅) :=
  ⟨⟨by decide, by decide⟩, rfl,
    push_before_define_fails UnicodeTables.ascii RangeOrder.listed ∅ "dev1" "temp" _
      ⟨some (AList.insert "room" "a" ∅), 5⟩ (by decide) (by decide) rfl rfl⟩

/-! ## C8 -/

/-- C8. For a successful push on `device/D/metrics/M/push` into a registry
whose family `M` stores label sets, the new observation list differs from the
old one at one index only; the observation there holds the pushed value and
its label set is the supplied label map (empty when absent) with `device_id`
mapped to `D`: exactly one label is named `device_id`, its value is `D`
whatever the device supplied, and every other supplied key is kept with its
value. -/
theorem push_injects_device_id (U : UnicodeTables) (ρ : RangeOrder) (reg : Registry)
    (D M : String) (payload : Option Json) (parsed : MetricPush)
    (hD : IsSegment D) (hM : IsSegment M)
    (hdec : json_Unmarshal_MetricPush U payload = .ok parsed)
    (hkeys : ∀ family, reg.lookup M = some family → LabelKeysUnique family)
    (hok : (metricsPushFn U ρ reg (pushTopic D M) payload).1 = none) :
    ∃ (family family' : MetricFamily) (i : Nat) (o : Metric), reg.lookup M = some family ∧
      (metricsPushFn U ρ reg (pushTopic D M) payload).2.lookup M = some family' ∧
      family'.Metric[i]? = some o ∧
      (∀ j : Nat, j ≠ i → family'.Metric[j]? = family.Metric[j]?) ∧
      slotOf family'.Typ o = some parsed.Value ∧
      IsLabelSetOf o.Label (suppliedLabels parsed) D ∧
      (o.Label.map LabelPair.Name).count "device_id" = 1 ∧
      (⟨"device_id", D⟩ : LabelPair) ∈ o.Label ∧
      (∀ v, (⟨"device_id", v⟩ : LabelPair) ∈ o.Label → v = D) ∧
      (∀ k v, k ≠ "device_id" → (suppliedLabels parsed).lookup k = some v →
        (⟨k, v⟩ : LabelPair) ∈ o.Label) := by
  have htop := regex_pushTopic D M hD hM
  cases hfam : reg.lookup M with
  | none =>
    rw [metricsPushFn_of_no_family U ρ reg _ payload parsed _ D M hdec htop hfam] at hok
    exact absurd hok (by simp)
  | some family =>
    rw [metricsPushFn_of_family U ρ reg _ payload parsed _ D M family hdec htop hfam]
    obtain ⟨i, old, hi, hperm, hothers, _⟩ :=
      pushedMetrics_target ρ family ((suppliedLabels parsed).insert "device_id" D)
        parsed.Value (hkeys family hfam)
    have hlab : (assignValue (match family.Typ with | some ty => ty | none => .UNTYPED)
        parsed.Value old).Label = old.Label := assignValue_Label _ _ _
    have hset : IsLabelSetOf old.Label (suppliedLabels parsed) D :=
      isLabelSetOf_of_perm _ _ _ hperm
    have hnd : (old.Label.map LabelPair.Name).Nodup :=
      ((hperm.map LabelPair.Name).nodup_iff).mpr (mapPairs_names_nodup _)
    have hmem : (⟨"device_id", D⟩ : LabelPair) ∈ old.Label := by
      have := (hset "device_id" D)
      simpa using this
    refine ⟨family, _, i, _, rfl, AList.lookup_insert _, hi, hothers,
      assignValue_slot family.Typ parsed.Value old, ?_, ?_, ?_, ?_, ?_⟩
    · rw [hlab]; exact hset
    · rw [hlab]
      exact List.count_eq_one_of_mem hnd (List.mem_map.mpr ⟨_, hmem, rfl⟩)
    · rw [hlab]; exact hmem
    · intro v hv
      rw [hlab] at hv
      simpa using (hset "device_id" v).mp hv
    · intro k v hk hl
      rw [hlab]
      have := (hset k v)
      simp only [hk, if_false] at this
      exact this.mpr hl

/-- Witness for C8: the device supplies its own `device_id` label, which the
push overrides. -/
theorem push_injects_device_id_witness :
    (IsSegment "dev1" ∧ IsSegment "temp") ∧
    (metricsPushFn UnicodeTables.ascii RangeOrder.reversed
      (metricsDefineFn UnicodeTables.ascii ∅ (defineTopic "dev1" "temp") (some (.obj []))).2
      (pushTopic "dev1" "temp")
      (some (.obj [("labels", .obj [("device_id", .str "other"), ("room", .str "a")]),
        ("value", .num (some 5))]))).1 = none ∧
    ∃ (family family' : MetricFamily) (i : Nat) (o : Metric),
      (metricsDefineFn UnicodeTables.ascii ∅ (defineTopic "dev1" "temp")
        (some (.obj []))).2.lookup "temp" = some family ∧
      (metricsPushFn UnicodeTables.ascii RangeOrder.reversed
        (metricsDefineFn UnicodeTables.ascii ∅ (defineTopic "dev1" "temp") (some (.obj []))).2
        (pushTopic "dev1" "temp")
        (some (.obj [("labels", .obj [("device_id", .str "other"), ("room", .str "a")]),
          ("value", .num (some 5))]))).2.lookup "temp" = some family' ∧
      family'.Metric[i]? = some o ∧
      (∀ j : Nat, j ≠ i → family'.Metric[j]? = family.Metric[j]?) ∧
      slotOf family'.Typ o = some 5 ∧
      IsLabelSetOf o.Label (AList.insert "room" "a" (AList.insert "device_id" "other" ∅)) "dev1" ∧
      (o.Label.map LabelPair.Name).count "device_id" = 1 ∧
      (⟨"device_id", "dev1"⟩ : LabelPair) ∈ o.Label ∧
      (∀ v, (⟨"device_id", v⟩ : LabelPair) ∈ o.Label → v = "dev1") ∧
      (∀ k v, k ≠ "device_id" →
        (AList.insert "room" "a" (AList.insert "device_id" "other" ∅) : GoMap String).lookup k
          = some v → (⟨k, v⟩ : LabelPair) ∈ o.Label) :=
  ⟨⟨by decide, by decide⟩, by decide,
    push_injects_device_id UnicodeTables.ascii RangeOrder.reversed _ "dev1" "temp" _
      ⟨some (AList.insert "room" "a" (AList.insert "device_id" "other" ∅)), 5⟩
      (by decide) (by decide) rfl
      (fun family h => by
        have hf : family = { Name := some "temp", Metric := [] } := by
          have h' : (metricsDefineFn UnicodeTables.ascii ∅ (defineTopic "dev1" "temp")
              (some (.obj []))).2.lookup "temp" = some { Name := some "temp", Metric := [] } := by
            decide
          rw [h'] at h
          exact (Option.some.inj h).symm
        subst hf
        decide)
      (by decide)⟩

theorem pushedMetrics_has_target (ρ : RangeOrder) (family : MetricFamily)
    (labels : GoMap String) (v : Float64) (hk : LabelKeysUnique family) :
    ∃ o ∈ pushedMetrics ρ family labels v, o.Label.Perm (mapPairs labels) := by
  obtain ⟨i, old, hi, hperm, _, _⟩ := pushedMetrics_target ρ family labels v hk
  exact ⟨_, List.mem_iff_getElem?.mpr ⟨i, hi⟩, by rw [assignValue_Label]; exact hperm⟩

theorem sameLabelSet_of_isLabelSetOf {l₁ l₂ : List LabelPair} {L : GoMap String} {D : String}
    (h₁ : IsLabelSetOf l₁ L D) (h₂ : IsLabelSetOf l₂ L D) : SameLabelSet l₁ l₂ :=
  ((isLabelSetOf_iff l₁ L D).mp h₁).trans ((isLabelSetOf_iff l₂ L D).mp h₂).symm

/-! ## C2 -/

/-- C2. Let family `M` store label sets with no two observations sharing one.
Two pushes on `device/D/metrics/M/push` that supply the same label map, first
with one value and then with another, both succeed; afterwards family `M` has
exactly one observation whose label set is that map with `device_id` mapped to
`D`, the slot of the family's type in it holds the second value, and the
second push left the number of observations as the first push left it. -/
theorem repush_updates_in_place (U : UnicodeTables) (ρ₁ ρ₂ : RangeOrder) (reg : Registry)
    (D M : String) (payload₁ payload₂ : Option Json) (parsed₁ parsed₂ : MetricPush)
    (family : MetricFamily)
    (hD : IsSegment D) (hM : IsSegment M)
    (hdec₁ : json_Unmarshal_MetricPush U payload₁ = .ok parsed₁)
    (hdec₂ : json_Unmarshal_MetricPush U payload₂ = .ok parsed₂)
    (hL : (suppliedLabels parsed₁).entries.Perm (suppliedLabels parsed₂).entries)
    (hfam : reg.lookup M = some family)
    (hkeys : LabelKeysUnique family) (hnodup : NoDuplicateLabelSets family) :
    (metricsPushFn U ρ₁ reg (pushTopic D M) payload₁).1 = none ∧
    (metricsPushFn U ρ₂ (metricsPushFn U ρ₁ reg (pushTopic D M) payload₁).2
      (pushTopic D M) payload₂).1 = none ∧
    ∃ family₁ family₂ : MetricFamily,
      (metricsPushFn U ρ₁ reg (pushTopic D M) payload₁).2.lookup M = some family₁ ∧
      (metricsPushFn U ρ₂ (metricsPushFn U ρ₁ reg (pushTopic D M) payload₁).2
        (pushTopic D M) payload₂).2.lookup M = some family₂ ∧
      (∃! i : Nat, ∃ o, family₂.Metric[i]? = some o ∧
        IsLabelSetOf o.Label (suppliedLabels parsed₁) D) ∧
      (∀ o ∈ family₂.Metric, IsLabelSetOf o.Label (suppliedLabels parsed₁) D →
        slotOf family₂.Typ o = some parsed₂.Value) ∧
      family₂.Metric.length = family₁.Metric.length := by
  have htop := regex_pushTopic D M hD hM
  rw [metricsPushFn_of_family U ρ₁ reg _ payload₁ parsed₁ _ D M family hdec₁ htop hfam]
  generalize hf₁ : ({ family with
      Metric := pushedMetrics ρ₁ family ((suppliedLabels parsed₁).insert "device_id" D)
        parsed₁.Value } : MetricFamily) = family₁
  have hinv₁ := pushedMetrics_inv ρ₁ family ((suppliedLabels parsed₁).insert "device_id" D)
    parsed₁.Value hkeys hnodup
  rw [hf₁] at hinv₁
  obtain ⟨hk₁, hn₁⟩ := hinv₁
  obtain ⟨o₁, hmem₁, hperm₁⟩ :=
    pushedMetrics_has_target ρ₁ family ((suppliedLabels parsed₁).insert "device_id" D)
      parsed₁.Value hkeys
  have hmem₁' : o₁ ∈ family₁.Metric := by rw [← hf₁]; exact hmem₁
  have hset₁ : IsLabelSetOf o₁.Label (suppliedLabels parsed₁) D :=
    isLabelSetOf_of_perm _ _ _ hperm₁
  have hset₂ : SameLabelSet o₁.Label (mapPairs ((suppliedLabels parsed₂).insert "device_id" D)) :=
    (isLabelSetOf_iff _ _ _).mp ((isLabelSetOf_congr _ _ _ D hL).mp hset₁)
  have hl₁ : (reg.insert M family₁).lookup M = some family₁ := AList.lookup_insert _
  rw [metricsPushFn_of_family U ρ₂ _ _ payload₂ parsed₂ _ D M family₁ hdec₂ htop hl₁]
  obtain ⟨i, hi, heq⟩ :=
    pushedMetrics_of_existing ρ₂ family₁ ((suppliedLabels parsed₂).insert "device_id" D)
      parsed₂.Value hk₁ hn₁ o₁ hmem₁' hset₂
  have hinv₂ := pushedMetrics_inv ρ₂ family₁ ((suppliedLabels parsed₂).insert "device_id" D)
    parsed₂.Value hk₁ hn₁
  generalize hf₂ : ({ family₁ with
      Metric := pushedMetrics ρ₂ family₁ ((suppliedLabels parsed₂).insert "device_id" D)
        parsed₂.Value } : MetricFamily) = family₂ at hinv₂
  obtain ⟨hk₂, hn₂⟩ := hinv₂
  have hm₂ : family₂.Metric = family₁.Metric.set i (assignValue
      (match family₁.Typ with | some ty => ty | none => .UNTYPED) parsed₂.Value o₁) := by
    rw [← hf₂]; exact heq
  have ht₂ : family₂.Typ = family₁.Typ := by rw [← hf₂]
  have hlt : i < family₁.Metric.length := (List.getElem?_eq_some.mp hi).1
  have hi₂ : family₂.Metric[i]? = some (assignValue
      (match family₁.Typ with | some ty => ty | none => .UNTYPED) parsed₂.Value o₁) := by
    rw [hm₂, List.getElem?_set]; simp [hlt]
  have hset_i : IsLabelSetOf (assignValue
      (match family₁.Typ with | some ty => ty | none => .UNTYPED) parsed₂.Value o₁).Label
      (suppliedLabels parsed₁) D := by
    rw [assignValue_Label]; exact hset₁
  have huniq : ∀ (j : Nat) (o : Metric), family₂.Metric[j]? = some o →
      IsLabelSetOf o.Label (suppliedLabels parsed₁) D → j = i := by
    intro j o hj hs
    exact index_unique_of_noDuplicate family₂ hn₂ j i _ _ hj hi₂
      (sameLabelSet_of_isLabelSetOf hs hset_i)
  refine ⟨rfl, rfl, family₁, family₂, hl₁, AList.lookup_insert _, ?_, ?_, ?_⟩
  · refine ⟨i, ⟨_, hi₂, hset_i⟩, ?_⟩
    rintro j ⟨o, hj, hs⟩
    exact huniq j o hj hs
  · intro o ho hs
    obtain ⟨j, hj⟩ := List.mem_iff_getElem?.mp ho
    have hji := huniq j o hj hs
    subst hji
    rw [hi₂] at hj
    cases hj
    rw [ht₂]
    exact assignValue_slot family₁.Typ parsed₂.Value o₁
  · rw [hm₂]; simp

/-- Witness for C2: labels `a`, `b` pushed with 5, then in the other order
with 7, into a freshly defined gauge. -/
theorem repush_updates_in_place_witness :
    (IsSegment "dev1" ∧ IsSegment "temp") ∧
    sampleRegistry.lookup "temp" = some sampleFamily ∧
    (LabelKeysUnique sampleFamily ∧ NoDuplicateLabelSets sampleFamily) ∧
    (metricsPushFn UnicodeTables.ascii RangeOrder.listed sampleRegistry
      (pushTopic "dev1" "temp") (samplePushAB 5)).1 = none ∧
    (metricsPushFn UnicodeTables.ascii RangeOrder.reversed
      (metricsPushFn UnicodeTables.ascii RangeOrder.listed sampleRegistry
        (pushTopic "dev1" "temp") (samplePushAB 5)).2
      (pushTopic "dev1" "temp") (samplePushBA 7)).1 = none ∧
    ∃ family₁ family₂ : MetricFamily,
      (metricsPushFn UnicodeTables.ascii RangeOrder.listed sampleRegistry
        (pushTopic "dev1" "temp") (samplePushAB 5)).2.lookup "temp" = some family₁ ∧
      (metricsPushFn UnicodeTables.ascii RangeOrder.reversed
        (metricsPushFn UnicodeTables.ascii RangeOrder.listed sampleRegistry
          (pushTopic "dev1" "temp") (samplePushAB 5)).2
        (pushTopic "dev1" "temp") (samplePushBA 7)).2.lookup "temp" = some family₂ ∧
      (∃! i : Nat, ∃ o, family₂.Metric[i]? = some o ∧
        IsLabelSetOf o.Label sampleLabelsAB "dev1") ∧
      (∀ o ∈ family₂.Metric, IsLabelSetOf o.Label sampleLabelsAB "dev1" →
        slotOf family₂.Typ o = some 7) ∧
      family₂.Metric.length = family₁.Metric.length :=
  ⟨⟨by decide, by decide⟩, by decide, ⟨by decide, by decide⟩,
    repush_updates_in_place UnicodeTables.ascii RangeOrder.listed RangeOrder.reversed
      sampleRegistry "dev1" "temp" (samplePushAB 5) (samplePushBA 7)
      ⟨some sampleLabelsAB, 5⟩ ⟨some sampleLabelsBA, 7⟩ sampleFamily
      (by decide) (by decide) rfl rfl (by decide) (by decide) (by decide) (by decide)⟩

/-! ## C3 -/

/-- C3. In every registry reached from the empty one by a finite sequence of
define and push messages, whether they succeed or fail, no family has two
observations whose label sets are equal as sets of pairs. In particular, in
such a registry a push whose label map with `device_id` is, as a set, the
label set of a stored observation succeeds and writes that observation in
place: the family keeps its number of observations. -/
theorem reachable_no_duplicate_label_sets (U : UnicodeTables) (msgs : List Message) :
    (∀ name family, (run U msgs).lookup name = some family → NoDuplicateLabelSets family) ∧
    (∀ (ρ : RangeOrder) (D M : String) (payload : Option Json) (parsed : MetricPush)
        (family : MetricFamily) (o : Metric),
      IsSegment D → IsSegment M →
      json_Unmarshal_MetricPush U payload = .ok parsed →
      (run U msgs).lookup M = some family → o ∈ family.Metric →
      IsLabelSetOf o.Label (suppliedLabels parsed) D →
      (metricsPushFn U ρ (run U msgs) (pushTopic D M) payload).1 = none ∧
      ∃ (family' : MetricFamily) (i : Nat),
        (run U (msgs ++ [.push ρ (pushTopic D M) payload])).lookup M = some family' ∧
        family.Metric[i]? = some o ∧
        family'.Metric = family.Metric.set i
          (assignValue (match family.Typ with | some ty => ty | none => .UNTYPED)
            parsed.Value o) ∧
        family'.Metric.length = family.Metric.length) := by
  have hinv := registryInv_run U msgs
  refine ⟨fun name family h => (hinv name family h).2, ?_⟩
  intro ρ D M payload parsed family o hD hM hdec hfam ho hset
  obtain ⟨hk, hn⟩ := hinv M family hfam
  have htop := regex_pushTopic D M hD hM
  have hrun : run U (msgs ++ [.push ρ (pushTopic D M) payload]) =
      (metricsPushFn U ρ (run U msgs) (pushTopic D M) payload).2 := by
    simp [run, List.foldl_append, deliver, mqttErrorHandlerWrapper]
  rw [hrun, metricsPushFn_of_family U ρ _ _ payload parsed _ D M family hdec htop hfam]
  obtain ⟨i, hi, heq⟩ :=
    pushedMetrics_of_existing ρ family ((suppliedLabels parsed).insert "device_id" D)
      parsed.Value hk hn o ho ((isLabelSetOf_iff _ _ _).mp hset)
  refine ⟨rfl, _, i, AList.lookup_insert _, hi, heq, ?_⟩
  simp only [heq, List.length_set]

/-- Witness for C3: after a define and a push of labels `a`, `b`, a push of the
same labels in the other order writes the stored observation. -/
theorem reachable_no_duplicate_label_sets_witness :
    (run UnicodeTables.ascii sampleMessages).lookup "temp" =
      some { sampleFamily with Metric := [sampleObservation] } ∧
    NoDuplicateLabelSets { sampleFamily with Metric := [sampleObservation] } ∧
    IsLabelSetOf sampleObservation.Label sampleLabelsBA "dev1" ∧
    (metricsPushFn UnicodeTables.ascii RangeOrder.reversed (run UnicodeTables.ascii sampleMessages)
      (pushTopic "dev1" "temp") (samplePushBA 7)).1 = none ∧
    ∃ (family' : MetricFamily) (i : Nat),
      (run UnicodeTables.ascii (sampleMessages ++
        [.push RangeOrder.reversed (pushTopic "dev1" "temp") (samplePushBA 7)])).lookup "temp"
          = some family' ∧
      [sampleObservation][i]? = some sampleObservation ∧
      family'.Metric = [sampleObservation].set i (assignValue .GAUGE 7 sampleObservation) ∧
      family'.Metric.length = 1 :=
  ⟨by decide,
    (reachable_no_duplicate_label_sets UnicodeTables.ascii sampleMessages).1 "temp"
      { sampleFamily with Metric := [sampleObservation] } (by decide),
    (isLabelSetOf_iff _ _ _).mpr (by decide),
    (reachable_no_duplicate_label_sets UnicodeTables.ascii sampleMessages).2
      RangeOrder.reversed "dev1" "temp" (samplePushBA 7) ⟨some sampleLabelsBA, 7⟩
      { sampleFamily with Metric := [sampleObservation] } sampleObservation
      (by decide) (by decide) rfl (by decide) (by decide)
      ((isLabelSetOf_iff _ _ _).mpr (by decide))⟩

/-! ## C5 -/

theorem metricsDefineFn_of_type (U : UnicodeTables) (reg : Registry) (D M : String)
    (payload : Option Json) (parsed : MetricDefinition) (t : String) (ty : MetricType)
    (hD : IsSegment D) (hM : IsSegment M)
    (hdec : json_Unmarshal_MetricDefinition U payload = .ok parsed)
    (ht : parsed.Typ = some t) (hty : MetricType_value (ToUpper U t) = some ty) :
    metricsDefineFn U reg (defineTopic D M) payload =
      (none, reg.insert M { (reg.lookup M).getD {} with
        Name := some M, Help := parsed.Help, Typ := some ty, Unit := parsed.Unit }) := by
  rw [metricsDefineFn_of_topic U reg _ payload parsed _ D M hdec (regex_defineTopic D M hD hM)]
  simp only [ht, hty]

theorem assignValue_slots (ty : MetricType) (v : Float64) (m : Metric) :
    (ty = .COUNTER → (assignValue ty v m).Counter = some v ∧
      (assignValue ty v m).Gauge = m.Gauge ∧ (assignValue ty v m).Untyped = m.Untyped) ∧
    (ty = .GAUGE → (assignValue ty v m).Gauge = some v ∧
      (assignValue ty v m).Counter = m.Counter ∧ (assignValue ty v m).Untyped = m.Untyped) ∧
    (ty = .UNTYPED → (assignValue ty v m).Untyped = some v ∧
      (assignValue ty v m).Counter = m.Counter ∧ (assignValue ty v m).Gauge = m.Gauge) := by
  cases ty <;> simp [assignValue]

/-- C5. A push writes its value into the slot of the family's type at push time
and leaves the other two slots of that observation as they were (absent for a
new observation). For the type switch: on a metric whose family, if present,
stores distinct label sets, define as gauge, push a first value for a label
map, define as counter, push a second value for the same label map; all four
calls succeed and the family then has exactly one observation for that label
set, whose counter slot holds the second value and whose gauge slot still
holds the first. -/
theorem push_writes_slot_of_current_type (U : UnicodeTables) (D M : String)
    (hD : IsSegment D) (hM : IsSegment M) :
    (∀ (ρ : RangeOrder) (reg : Registry) (payload : Option Json) (parsed : MetricPush)
        (family : MetricFamily),
      json_Unmarshal_MetricPush U payload = .ok parsed →
      reg.lookup M = some family → LabelKeysUnique family →
      (metricsPushFn U ρ reg (pushTopic D M) payload).1 = none ∧
      ∃ (family' : MetricFamily) (i : Nat) (o : Metric),
        (metricsPushFn U ρ reg (pushTopic D M) payload).2.lookup M = some family' ∧
        family'.Typ = family.Typ ∧
        family'.Metric[i]? = some o ∧
        (∀ j : Nat, j ≠ i → family'.Metric[j]? = family.Metric[j]?) ∧
        IsLabelSetOf o.Label (suppliedLabels parsed) D ∧
        (family.Typ = some .COUNTER → o.Counter = some parsed.Value ∧
          o.Gauge = ((family.Metric[i]?).getD {}).Gauge ∧
          o.Untyped = ((family.Metric[i]?).getD {}).Untyped) ∧
        (family.Typ = some .GAUGE → o.Gauge = some parsed.Value ∧
          o.Counter = ((family.Metric[i]?).getD {}).Counter ∧
          o.Untyped = ((family.Metric[i]?).getD {}).Untyped) ∧
        (family.Typ = some .UNTYPED → o.Untyped = some parsed.Value ∧
          o.Counter = ((family.Metric[i]?).getD {}).Counter ∧
          o.Gauge = ((family.Metric[i]?).getD {}).Gauge)) ∧
    (∀ (ρ₁ ρ₂ : RangeOrder) (reg : Registry) (define₁ push₁ define₂ push₂ : Option Json)
        (def₁ def₂ : MetricDefinition) (t₁ t₂ : String) (parsed₁ parsed₂ : MetricPush),
      json_Unmarshal_MetricDefinition U define₁ = .ok def₁ → def₁.Typ = some t₁ →
      MetricType_value (ToUpper U t₁) = some .GAUGE →
      json_Unmarshal_MetricDefinition U define₂ = .ok def₂ → def₂.Typ = some t₂ →
      MetricType_value (ToUpper U t₂) = some .COUNTER →
      json_Unmarshal_MetricPush U push₁ = .ok parsed₁ →
      json_Unmarshal_MetricPush U push₂ = .ok parsed₂ →
      (suppliedLabels parsed₁).entries.Perm (suppliedLabels parsed₂).entries →
      (∀ family, reg.lookup M = some family →
        LabelKeysUnique family ∧ NoDuplicateLabelSets family) →
      (typeSwitchScenario U ρ₁ ρ₂ reg D M define₁ push₁ define₂ push₂).1 =
        [none, none, none, none] ∧
      ∃ family₄ : MetricFamily,
        (typeSwitchScenario U ρ₁ ρ₂ reg D M define₁ push₁ define₂ push₂).2.lookup M =
          some family₄ ∧
        (∃! i : Nat, ∃ o, family₄.Metric[i]? = some o ∧
          IsLabelSetOf o.Label (suppliedLabels parsed₁) D) ∧
        (∀ o ∈ family₄.Metric, IsLabelSetOf o.Label (suppliedLabels parsed₁) D →
          o.Counter = some parsed₂.Value ∧ o.Gauge = some parsed₁.Value)) := by
  have htop := regex_pushTopic D M hD hM
  constructor
  · intro ρ reg payload parsed family hdec hfam hk
    rw [metricsPushFn_of_family U ρ reg _ payload parsed _ D M family hdec htop hfam]
    obtain ⟨i, old, hi, hperm, hothers, hcase⟩ :=
      pushedMetrics_target ρ family ((suppliedLabels parsed).insert "device_id" D)
        parsed.Value hk
    have hold : ((family.Metric[i]?).getD {}).Gauge = old.Gauge ∧
        ((family.Metric[i]?).getD {}).Counter = old.Counter ∧
        ((family.Metric[i]?).getD {}).Untyped = old.Untyped := by
      rcases hcase with ⟨h, _⟩ | ⟨h, ho, _, _⟩
      · rw [h]; exact ⟨rfl, rfl, rfl⟩
      · subst h; subst ho; simp
    obtain ⟨hg, hc, hu⟩ := hold
    refine ⟨rfl, _, i, _, AList.lookup_insert _, rfl, hi, hothers, ?_, ?_, ?_, ?_⟩
    · rw [assignValue_Label]; exact isLabelSetOf_of_perm _ _ _ hperm
    · intro ht
      rw [hg, hu]
      simp only [ht]
      exact (assignValue_slots .COUNTER parsed.Value old).1 rfl
    · intro ht
      rw [hc, hu]
      simp only [ht]
      exact (assignValue_slots .GAUGE parsed.Value old).2.1 rfl
    · intro ht
      rw [hc, hg]
      simp only [ht]
      exact (assignValue_slots .UNTYPED parsed.Value old).2.2 rfl
  · intro ρ₁ ρ₂ reg define₁ push₁ define₂ push₂ def₁ def₂ t₁ t₂ parsed₁ parsed₂
      hd₁ ht₁ hty₁ hd₂ ht₂ hty₂ hp₁ hp₂ hL hinv
    unfold typeSwitchScenario
    simp only []
    -- first define
    rw [metricsDefineFn_of_type U reg D M define₁ def₁ t₁ .GAUGE hD hM hd₁ ht₁ hty₁]
    generalize hf₁ : ({ (reg.lookup M).getD {} with
      Name := some M, Help := def₁.Help, Typ := some MetricType.GAUGE, Unit := def₁.Unit }
        : MetricFamily) = family₁
    have hm₁ : family₁.Metric = ((reg.lookup M).getD {}).Metric := by rw [← hf₁]
    have hT₁ : family₁.Typ = some .GAUGE := by rw [← hf₁]
    have hinv₁ : LabelKeysUnique family₁ ∧ NoDuplicateLabelSets family₁ := by
      unfold LabelKeysUnique NoDuplicateLabelSets
      rw [hm₁]
      cases hl : reg.lookup M with
      | none => simp
      | some f => exact hinv f hl
    obtain ⟨hk₁, hn₁⟩ := hinv₁
    -- first push
    have hl₁ : (reg.insert M family₁).lookup M = some family₁ := AList.lookup_insert _
    rw [metricsPushFn_of_family U ρ₁ _ _ push₁ parsed₁ _ D M family₁ hp₁ htop hl₁]
    obtain ⟨i₁, old, hi₁, hperm₁, _, _⟩ :=
      pushedMetrics_target ρ₁ family₁ ((suppliedLabels parsed₁).insert "device_id" D)
        parsed₁.Value hk₁
    have hinv₂ := pushedMetrics_inv ρ₁ family₁ ((suppliedLabels parsed₁).insert "device_id" D)
      parsed₁.Value hk₁ hn₁
    generalize hf₂ : ({ family₁ with
      Metric := pushedMetrics ρ₁ family₁ ((suppliedLabels parsed₁).insert "device_id" D)
        parsed₁.Value } : MetricFamily) = family₂ at hinv₂
    have hm₂ : family₂.Metric = pushedMetrics ρ₁ family₁
        ((suppliedLabels parsed₁).insert "device_id" D) parsed₁.Value := by rw [← hf₂]
    rw [← hm₂, hT₁] at hi₁
    simp only [] at hi₁
    have hg₂ : (assignValue .GAUGE parsed₁.Value old).Gauge = some parsed₁.Value :=
      ((assignValue_slots .GAUGE parsed₁.Value old).2.1 rfl).1
    have hlab₂ : (assignValue .GAUGE parsed₁.Value old).Label = old.Label :=
      assignValue_Label _ _ _
    generalize assignValue .GAUGE parsed₁.Value old = o₂ at hi₁ hg₂ hlab₂
    -- second define
    have hl₂ : ((reg.insert M family₁).insert M family₂).lookup M = some family₂ :=
      AList.lookup_insert _
    rw [metricsDefineFn_of_type U _ D M define₂ def₂ t₂ .COUNTER hD hM hd₂ ht₂ hty₂, hl₂]
    simp only [Option.getD]
    generalize hf₃ : ({ family₂ with
      Name := some M, Help := def₂.Help, Typ := some MetricType.COUNTER, Unit := def₂.Unit }
        : MetricFamily) = family₃
    have hm₃ : family₃.Metric = family₂.Metric := by rw [← hf₃]
    have hT₃ : family₃.Typ = some .COUNTER := by rw [← hf₃]
    have hk₃ : LabelKeysUnique family₃ := by
      unfold LabelKeysUnique; rw [hm₃]; exact hinv₂.1
    have hn₃ : NoDuplicateLabelSets family₃ := by
      unfold NoDuplicateLabelSets; rw [hm₃]; exact hinv₂.2
    -- second push
    have hl₃ : (((reg.insert M family₁).insert M family₂).insert M family₃).lookup M =
        some family₃ := AList.lookup_insert _
    rw [metricsPushFn_of_family U ρ₂ _ _ push₂ parsed₂ _ D M family₃ hp₂ htop hl₃]
    have hset₁ : IsLabelSetOf o₂.Label (suppliedLabels parsed₁) D := by
      rw [hlab₂]; exact isLabelSetOf_of_perm _ _ _ hperm₁
    have hmem₃ : o₂ ∈ family₃.Metric := by
      rw [hm₃]; exact List.mem_iff_getElem?.mpr ⟨i₁, hi₁⟩
    obtain ⟨i, hi, heq⟩ :=
      pushedMetrics_of_existing ρ₂ family₃ ((suppliedLabels parsed₂).insert "device_id" D)
        parsed₂.Value hk₃ hn₃ o₂ hmem₃
        ((isLabelSetOf_iff _ _ _).mp ((isLabelSetOf_congr _ _ _ D hL).mp hset₁))
    have hinv₄ := pushedMetrics_inv ρ₂ family₃ ((suppliedLabels parsed₂).insert "device_id" D)
      parsed₂.Value hk₃ hn₃
    generalize hf₄ : ({ family₃ with
      Metric := pushedMetrics ρ₂ family₃ ((suppliedLabels parsed₂).insert "device_id" D)
        parsed₂.Value } : MetricFamily) = family₄ at hinv₄
    have hm₄ : family₄.Metric = family₃.Metric.set i (assignValue .COUNTER parsed₂.Value o₂) := by
      rw [← hf₄]; simp only [heq, hT₃]
    have hlt : i < family₃.Metric.length := (List.getElem?_eq_some.mp hi).1
    have hi₄ : family₄.Metric[i]? = some (assignValue .COUNTER parsed₂.Value o₂) := by
      rw [hm₄, List.getElem?_set]; simp [hlt]
    have hset₄ : IsLabelSetOf (assignValue .COUNTER parsed₂.Value o₂).Label
        (suppliedLabels parsed₁) D := by
      rw [assignValue_Label]; exact hset₁
    have huniq : ∀ (j : Nat) (o : Metric), family₄.Metric[j]? = some o →
        IsLabelSetOf o.Label (suppliedLabels parsed₁) D → j = i := by
      intro j o hj hs
      exact index_unique_of_noDuplicate family₄ hinv₄.2 j i _ _ hj hi₄
        (sameLabelSet_of_isLabelSetOf hs hset₄)
    refine ⟨rfl, family₄, AList.lookup_insert _, ⟨i, ⟨_, hi₄, hset₄⟩, ?_⟩, ?_⟩
    · rintro j ⟨o, hj, hs⟩
      exact huniq j o hj hs
    · intro o ho hs
      obtain ⟨j, hj⟩ := List.mem_iff_getElem?.mp ho
      have hji := huniq j o hj hs
      subst hji
      rw [hi₄] at hj
      cases hj
      have h := (assignValue_slots .COUNTER parsed₂.Value o₂).1 rfl
      exact ⟨h.1, by rw [h.2.1, hg₂]⟩

/-- Witness for C5: gauge, push 5, counter, push 7 on `temp` from the empty
registry, and a single push of 5 into the freshly defined gauge. -/
theorem push_writes_slot_of_current_type_witness :
    (IsSegment "dev1" ∧ IsSegment "temp") ∧
    ((metricsPushFn UnicodeTables.ascii RangeOrder.listed sampleRegistry
        (pushTopic "dev1" "temp") (samplePushAB 5)).1 = none ∧
      ∃ (family' : MetricFamily) (i : Nat) (o : Metric),
        (metricsPushFn UnicodeTables.ascii RangeOrder.listed sampleRegistry
          (pushTopic "dev1" "temp") (samplePushAB 5)).2.lookup "temp" = some family' ∧
        family'.Typ = sampleFamily.Typ ∧
        family'.Metric[i]? = some o ∧
        (∀ j : Nat, j ≠ i → family'.Metric[j]? = sampleFamily.Metric[j]?) ∧
        IsLabelSetOf o.Label sampleLabelsAB "dev1" ∧
        (sampleFamily.Typ = some .COUNTER → o.Counter = some 5 ∧
          o.Gauge = ((sampleFamily.Metric[i]?).getD {}).Gauge ∧
          o.Untyped = ((sampleFamily.Metric[i]?).getD {}).Untyped) ∧
        (sampleFamily.Typ = some .GAUGE → o.Gauge = some 5 ∧
          o.Counter = ((sampleFamily.Metric[i]?).getD {}).Counter ∧
          o.Untyped = ((sampleFamily.Metric[i]?).getD {}).Untyped) ∧
        (sampleFamily.Typ = some .UNTYPED → o.Untyped = some 5 ∧
          o.Counter = ((sampleFamily.Metric[i]?).getD {}).Counter ∧
          o.Gauge = ((sampleFamily.Metric[i]?).getD {}).Gauge)) ∧
    ((typeSwitchScenario UnicodeTables.ascii RangeOrder.listed RangeOrder.reversed ∅
        "dev1" "temp" (sampleDefine "gauge") (samplePushAB 5) (sampleDefine "counter")
        (samplePushBA 7)).1 = [none, none, none, none] ∧
      ∃ family₄ : MetricFamily,
        (typeSwitchScenario UnicodeTables.ascii RangeOrder.listed RangeOrder.reversed ∅
          "dev1" "temp" (sampleDefine "gauge") (samplePushAB 5) (sampleDefine "counter")
          (samplePushBA 7)).2.lookup "temp" = some family₄ ∧
        (∃! i : Nat, ∃ o, family₄.Metric[i]? = some o ∧
          IsLabelSetOf o.Label sampleLabelsAB "dev1") ∧
        (∀ o ∈ family₄.Metric, IsLabelSetOf o.Label sampleLabelsAB "dev1" →
          o.Counter = some 7 ∧ o.Gauge = some 5)) :=
  ⟨⟨by decide, by decide⟩,
    (push_writes_slot_of_current_type UnicodeTables.ascii "dev1" "temp"
      (by decide) (by decide)).1 RangeOrder.listed sampleRegistry (samplePushAB 5)
      ⟨some sampleLabelsAB, 5⟩ sampleFamily rfl (by decide) (by decide),
    (push_writes_slot_of_current_type UnicodeTables.ascii "dev1" "temp"
      (by decide) (by decide)).2 RangeOrder.listed RangeOrder.reversed ∅
      (sampleDefine "gauge") (samplePushAB 5) (sampleDefine "counter") (samplePushBA 7)
      ⟨some "room temperature", some "gauge", some "celsius"⟩
      ⟨some "room temperature", some "counter", some "celsius"⟩ "gauge" "counter"
      ⟨some sampleLabelsAB, 5⟩ ⟨some sampleLabelsBA, 7⟩
      rfl rfl (by decide) rfl rfl (by decide) rfl rfl (by decide)
      (fun family h => absurd h (by simp))⟩

/-! ## C6 -/

theorem metricType_value_eq_some (s : String) (ty : MetricType) :
    MetricType_value s = some ty ↔ MetricType_name ty = s := by
  constructor
  · intro h
    unfold MetricType_value at h
    split_ifs at h with h1 h2 h3 h4 h5 h6 <;> cases h <;> simp [MetricType_name, *]
  · intro h
    subst h
    cases ty <;> decide

theorem metricType_value_eq_none (s : String) :
    MetricType_value s = none ↔
      s ∉ ["COUNTER", "GAUGE", "SUMMARY", "UNTYPED", "HISTOGRAM", "GAUGE_HISTOGRAM"] := by
  unfold MetricType_value
  split_ifs with h1 h2 h3 h4 h5 h6 <;> simp [*]

/-- Counterexample to C6 as stated: `summary` and `histogram` are none of
counter, gauge, untyped in any letter case, yet a define with either token
succeeds and sets the family's type to `SUMMARY` or `HISTOGRAM`. -/
theorem define_accepts_summary_and_histogram :
    (ToUpper UnicodeTables.ascii "summary" ∉ ["COUNTER", "GAUGE", "UNTYPED"] ∧
      (metricsDefineFn UnicodeTables.ascii ∅ (defineTopic "dev1" "temp")
        (sampleDefine "summary")).1 = none ∧
      ((metricsDefineFn UnicodeTables.ascii ∅ (defineTopic "dev1" "temp")
        (sampleDefine "summary")).2.lookup "temp").map (fun f => f.Typ) =
          some (some .SUMMARY)) ∧
    (ToUpper UnicodeTables.ascii "histogram" ∉ ["COUNTER", "GAUGE", "UNTYPED"] ∧
      (metricsDefineFn UnicodeTables.ascii ∅ (defineTopic "dev1" "temp")
        (sampleDefine "histogram")).1 = none ∧
      ((metricsDefineFn UnicodeTables.ascii ∅ (defineTopic "dev1" "temp")
        (sampleDefine "histogram")).2.lookup "temp").map (fun f => f.Typ) =
          some (some .HISTOGRAM)) := by
  decide

/-- C6, amended. A define on `device/D/metrics/M/define` that supplies a type
token succeeds exactly when the upper-cased token is one of the six names of
the metric type enum: COUNTER, GAUGE, SUMMARY, UNTYPED, HISTOGRAM,
GAUGE_HISTOGRAM. It then sets the family's type to the value of that name.
Every other token makes it fail with the unknown-metric-type error. -/
theorem define_type_token (U : UnicodeTables) (reg : Registry) (D M : String)
    (payload : Option Json) (parsed : MetricDefinition) (t : String)
    (hD : IsSegment D) (hM : IsSegment M)
    (hdec : json_Unmarshal_MetricDefinition U payload = .ok parsed)
    (ht : parsed.Typ = some t) :
    ((metricsDefineFn U reg (defineTopic D M) payload).1 = none ↔
      ToUpper U t ∈
        ["COUNTER", "GAUGE", "SUMMARY", "UNTYPED", "HISTOGRAM", "GAUGE_HISTOGRAM"]) ∧
    (∀ ty, MetricType_name ty = ToUpper U t →
      (metricsDefineFn U reg (defineTopic D M) payload).1 = none ∧
      ((metricsDefineFn U reg (defineTopic D M) payload).2.lookup M).map (fun f => f.Typ) =
        some (some ty)) ∧
    (ToUpper U t ∉
        ["COUNTER", "GAUGE", "SUMMARY", "UNTYPED", "HISTOGRAM", "GAUGE_HISTOGRAM"] →
      (metricsDefineFn U reg (defineTopic D M) payload).1 =
        some (.unknownMetricType (ToUpper U t))) := by
  rw [metricsDefineFn_of_topic U reg _ payload parsed _ D M hdec (regex_defineTopic D M hD hM)]
  simp only [ht]
  cases hv : MetricType_value (ToUpper U t) with
  | none =>
    have hnot := (metricType_value_eq_none _).mp hv
    refine ⟨⟨fun h => absurd h (by simp), fun h => absurd h hnot⟩, ?_, fun _ => rfl⟩
    intro ty hty
    rw [(metricType_value_eq_some _ _).mpr hty] at hv
    exact absurd hv (by simp)
  | some ty =>
    have hin : ToUpper U t ∈
        ["COUNTER", "GAUGE", "SUMMARY", "UNTYPED", "HISTOGRAM", "GAUGE_HISTOGRAM"] := by
      by_contra hc
      rw [(metricType_value_eq_none _).mpr hc] at hv
      exact absurd hv (by simp)
    refine ⟨⟨fun _ => hin, fun _ => rfl⟩, ?_, fun h => absurd hin h⟩
    intro ty' hty'
    rw [(metricType_value_eq_some _ _).mpr hty'] at hv
    cases hv
    exact ⟨rfl, by simp [AList.lookup_insert]⟩

/-- Witness for the amended C6: the token `Gauge` on the empty registry. -/
theorem define_type_token_witness :
    (IsSegment "dev1" ∧ IsSegment "temp") ∧
    ((metricsDefineFn UnicodeTables.ascii ∅ (defineTopic "dev1" "temp")
        (sampleDefine "Gauge")).1 = none ↔
      ToUpper UnicodeTables.ascii "Gauge" ∈
        ["COUNTER", "GAUGE", "SUMMARY", "UNTYPED", "HISTOGRAM", "GAUGE_HISTOGRAM"]) ∧
    (∀ ty, MetricType_name ty = ToUpper UnicodeTables.ascii "Gauge" →
      (metricsDefineFn UnicodeTables.ascii ∅ (defineTopic "dev1" "temp")
        (sampleDefine "Gauge")).1 = none ∧
      ((metricsDefineFn UnicodeTables.ascii ∅ (defineTopic "dev1" "temp")
        (sampleDefine "Gauge")).2.lookup "temp").map (fun f => f.Typ) = some (some ty)) ∧
    (ToUpper UnicodeTables.ascii "Gauge" ∉
        ["COUNTER", "GAUGE", "SUMMARY", "UNTYPED", "HISTOGRAM", "GAUGE_HISTOGRAM"] →
      (metricsDefineFn UnicodeTables.ascii ∅ (defineTopic "dev1" "temp")
        (sampleDefine "Gauge")).1 =
          some (.unknownMetricType (ToUpper UnicodeTables.ascii "Gauge"))) :=
  ⟨⟨by decide, by decide⟩,
    define_type_token UnicodeTables.ascii ∅ "dev1" "temp" (sampleDefine "Gauge")
      ⟨some "room temperature", some "Gauge", some "celsius"⟩ "Gauge"
      (by decide) (by decide) rfl rfl⟩

/-! ## C7 -/

/-- Counterexample to C7 as stated: a define with the token `bogus`, help
`outside` and unit `fahrenheit` fails with the unknown-metric-type error; the
help of the family is overwritten, but its unit is not the unit of the message:
it stays `celsius` on the family defined before, and absent on a family the
call creates. -/
theorem failed_define_keeps_unit :
    ((metricsDefineFn UnicodeTables.ascii sampleRegistry (defineTopic "dev1" "temp")
        sampleRedefine).1 = some (.unknownMetricType "BOGUS") ∧
      ((metricsDefineFn UnicodeTables.ascii sampleRegistry (defineTopic "dev1" "temp")
        sampleRedefine).2.lookup "temp").map (fun f => (f.Help, f.Unit)) =
          some (some "outside", some "celsius")) ∧
    ((metricsDefineFn UnicodeTables.ascii ∅ (defineTopic "dev1" "temp")
        sampleRedefine).1 = some (.unknownMetricType "BOGUS") ∧
      ((metricsDefineFn UnicodeTables.ascii ∅ (defineTopic "dev1" "temp")
        sampleRedefine).2.lookup "temp").map (fun f => (f.Help, f.Unit)) =
          some (some "outside", none)) ∧
    json_Unmarshal_MetricDefinition UnicodeTables.ascii sampleRedefine =
      .ok ⟨some "outside", some "bogus", some "fahrenheit"⟩ := by
  refine ⟨by decide, by decide, rfl⟩

/-- C7, amended. A define on `device/D/metrics/M/define` whose type token is
unrecognized fails with the unknown-metric-type error; afterwards family `M`
exists, its help is the help of the message, and its unit is the unit the
family had before the call (absent for a family the call created): the unit of
the message is not written. -/
theorem failed_define_overwrites_help_only (U : UnicodeTables) (reg : Registry) (D M : String)
    (payload : Option Json) (parsed : MetricDefinition) (t : String)
    (hD : IsSegment D) (hM : IsSegment M)
    (hdec : json_Unmarshal_MetricDefinition U payload = .ok parsed)
    (ht : parsed.Typ = some t)
    (hbad : MetricType_value (ToUpper U t) = none) :
    (metricsDefineFn U reg (defineTopic D M) payload).1 =
      some (.unknownMetricType (ToUpper U t)) ∧
    ∃ family' : MetricFamily,
      (metricsDefineFn U reg (defineTopic D M) payload).2.lookup M = some family' ∧
      family'.Help = parsed.Help ∧
      family'.Unit = (match reg.lookup M with
        | some family => family.Unit
        | none => none) := by
  rw [metricsDefineFn_of_topic U reg _ payload parsed _ D M hdec (regex_defineTopic D M hD hM)]
  simp only [ht, hbad]
  refine ⟨trivial, _, AList.lookup_insert _, rfl, ?_⟩
  cases reg.lookup M <;> rfl

/-- Witness for the amended C7: the token `bogus` on the family defined
before. -/
theorem failed_define_overwrites_help_only_witness :
    (IsSegment "dev1" ∧ IsSegment "temp") ∧
    MetricType_value (ToUpper UnicodeTables.ascii "bogus") = none ∧
    (metricsDefineFn UnicodeTables.ascii sampleRegistry (defineTopic "dev1" "temp")
      sampleRedefine).1 = some (.unknownMetricType (ToUpper UnicodeTables.ascii "bogus")) ∧
    ∃ family' : MetricFamily,
      (metricsDefineFn UnicodeTables.ascii sampleRegistry (defineTopic "dev1" "temp")
        sampleRedefine).2.lookup "temp" = some family' ∧
      family'.Help = some "outside" ∧
      family'.Unit = (match sampleRegistry.lookup "temp" with
        | some family => family.Unit
        | none => none) :=
  ⟨⟨by decide, by decide⟩, by decide,
    failed_define_overwrites_help_only UnicodeTables.ascii sampleRegistry "dev1" "temp"
      sampleRedefine ⟨some "outside", some "bogus", some "fahrenheit"⟩ "bogus"
      (by decide) (by decide) rfl rfl (by decide)⟩

/-! ## C9 -/

theorem resolveField_mem (U : UnicodeTables) (fields : List String) (key f : String)
    (h : resolveField U fields key = some f) : f ∈ fields := by
  unfold resolveField at h
  split_ifs at h with hk
  · cases h; exact hk
  · exact List.mem_of_find?_eq_some h

theorem unmarshalPushMember_value (U : UnicodeTables) (d d' : MetricPush) (kv : String × Json)
    (hkv : resolveField U ["labels", "value"] kv.1 ≠ some "value")
    (h : unmarshalPushMember U d kv = .ok d') : d'.Value = d.Value := by
  unfold unmarshalPushMember at h
  cases hr : resolveField U ["labels", "value"] kv.1 with
  | none => rw [hr] at h; cases h; rfl
  | some f =>
    rw [hr] at h
    have hf := resolveField_mem U _ _ _ hr
    have hne : f ≠ "value" := fun hc => hkv (by rw [hr, hc])
    have hl : f = "labels" := by
      simp only [List.mem_cons, List.mem_singleton, List.not_mem_nil, or_false] at hf
      rcases hf with h1 | h1
      · exact h1
      · exact absurd h1 hne
    simp only [hl, if_true] at h
    cases hm : decodeStringMap d.Labels kv.2 with
    | error e => rw [hm] at h; cases h
    | ok m => rw [hm] at h; cases h; rfl

theorem foldlM_push_value (U : UnicodeTables) (members : List (String × Json))
    (d d' : MetricPush)
    (hno : ∀ kv ∈ members, resolveField U ["labels", "value"] kv.1 ≠ some "value")
    (h : members.foldlM (unmarshalPushMember U) d = .ok d') : d'.Value = d.Value := by
  induction members generalizing d with
  | nil => simp only [List.foldlM_nil] at h; cases h; rfl
  | cons kv rest ih =>
    rw [List.foldlM_cons] at h
    cases hm : unmarshalPushMember U d kv with
    | error e => rw [hm] at h; cases h
    | ok d₁ =>
      rw [hm] at h
      have h1 := unmarshalPushMember_value U d d₁ kv (hno kv (List.mem_cons_self _ _)) hm
      have h2 := ih d₁ (fun kv' hkv' => hno kv' (List.mem_cons_of_mem _ hkv')) h
      rw [h2, h1]

theorem unmarshalPushMember_zero (U : UnicodeTables) (d : MetricPush) (hd : d.Value = 0) :
    unmarshalPushMember U d ("value", .num (some 0)) = .ok d := by
  have hr : resolveField U ["labels", "value"] "value" = some "value" := by
    unfold resolveField; simp
  unfold unmarshalPushMember
  simp only [hr]
  have hne : ¬ ("value" = "labels") := by decide
  simp only [hne, if_false, decodeFloat64]
  cases d
  simp only at hd
  subst hd
  rfl

theorem unmarshal_push_without_value (U : UnicodeTables) (members : List (String × Json))
    (hno : ∀ kv ∈ members, resolveField U ["labels", "value"] kv.1 ≠ some "value") :
    json_Unmarshal_MetricPush U (some (.obj members)) =
      json_Unmarshal_MetricPush U (some (.obj (members ++ [("value", .num (some 0))]))) := by
  unfold json_Unmarshal_MetricPush
  simp only []
  rw [List.foldlM_append]
  cases hm : members.foldlM (unmarshalPushMember U) {} with
  | error e => rfl
  | ok d =>
    have hd : d.Value = 0 := foldlM_push_value U members {} d hno hm
    show Except.ok d = (List.foldlM (unmarshalPushMember U) d [("value", .num (some 0))])
    rw [List.foldlM_cons, unmarshalPushMember_zero U d hd]
    rfl

theorem pushedMetrics_has_value (ρ : RangeOrder) (family : MetricFamily)
    (labels : GoMap String) (v : Float64) :
    ∃ o ∈ pushedMetrics ρ family labels v, slotOf family.Typ o = some v := by
  rcases pushedMetrics_cases ρ family labels v with ⟨i, o, _, ho, _, heq⟩ | ⟨_, _, heq⟩
  · have hlt : i < family.Metric.length := (List.getElem?_eq_some.mp ho).1
    refine ⟨_, ?_, assignValue_slot family.Typ v o⟩
    rw [heq]
    exact List.mem_iff_getElem?.mpr ⟨i, by rw [List.getElem?_set]; simp [hlt]⟩
  · refine ⟨_, ?_, assignValue_slot family.Typ v { Label := labelsMapToLabelPairs ρ labels }⟩
    rw [heq]
    simp

/-- Counterexample to C9 as stated: the payloads `{}` and
`{"labels":{"a":"1"}}` have no value member, yet the push into the defined
gauge succeeds and records an observation holding 0. -/
theorem push_without_value_records_zero :
    ((metricsPushFn UnicodeTables.ascii RangeOrder.listed sampleRegistry
        (pushTopic "dev1" "temp") (some (.obj []))).1 = none ∧
      (metricsPushFn UnicodeTables.ascii RangeOrder.listed sampleRegistry
        (pushTopic "dev1" "temp") (some (.obj []))).2.lookup "temp" =
        some { sampleFamily with
          Metric := [{ Label := [⟨"device_id", "dev1"⟩], Gauge := some 0 }] }) ∧
    ((metricsPushFn UnicodeTables.ascii RangeOrder.listed sampleRegistry
        (pushTopic "dev1" "temp") (some (.obj [("labels", .obj [("a", .str "1")])]))).1 = none ∧
      (metricsPushFn UnicodeTables.ascii RangeOrder.listed sampleRegistry
        (pushTopic "dev1" "temp")
        (some (.obj [("labels", .obj [("a", .str "1")])]))).2.lookup "temp" =
        some { sampleFamily with
          Metric := [{ Label := [⟨"device_id", "dev1"⟩, ⟨"a", "1"⟩], Gauge := some 0 }] }) ∧
    sampleRegistry.lookup "temp" = some sampleFamily ∧ sampleFamily.Metric = [] := by
  decide

/-- C9, amended. A push whose payload is a JSON object with no value member is
decoded with the value 0, the zero value of the field, and is not rejected
for the missing member: the handler does exactly what it does for the same
object with the member `"value": 0` added. On a defined metric, when the rest
of the document decodes, it succeeds and an observation of the family holds
0 in the slot of the family's type. -/
theorem push_without_value_is_push_of_zero (U : UnicodeTables) (ρ : RangeOrder)
    (reg : Registry) (members : List (String × Json))
    (hno : ∀ kv ∈ members, resolveField U ["labels", "value"] kv.1 ≠ some "value") :
    (∀ parsed, json_Unmarshal_MetricPush U (some (.obj members)) = .ok parsed →
      parsed.Value = 0) ∧
    (∀ topic, metricsPushFn U ρ reg topic (some (.obj members)) =
      metricsPushFn U ρ reg topic (some (.obj (members ++ [("value", .num (some 0))])))) ∧
    (∀ (D M : String) (parsed : MetricPush) (family : MetricFamily),
      IsSegment D → IsSegment M →
      json_Unmarshal_MetricPush U (some (.obj members)) = .ok parsed →
      reg.lookup M = some family →
      (metricsPushFn U ρ reg (pushTopic D M) (some (.obj members))).1 = none ∧
      ∃ family' : MetricFamily,
        (metricsPushFn U ρ reg (pushTopic D M) (some (.obj members))).2.lookup M =
          some family' ∧
        ∃ o ∈ family'.Metric, slotOf family'.Typ o = some 0) := by
  have hval : ∀ parsed, json_Unmarshal_MetricPush U (some (.obj members)) = .ok parsed →
      parsed.Value = 0 := by
    intro parsed h
    exact foldlM_push_value U members {} parsed hno h
  refine ⟨hval, ?_, ?_⟩
  · intro topic
    unfold metricsPushFn
    rw [unmarshal_push_without_value U members hno]
  · intro D M parsed family hD hM hdec hfam
    rw [metricsPushFn_of_family U ρ reg _ _ parsed _ D M family hdec
      (regex_pushTopic D M hD hM) hfam]
    obtain ⟨o, ho, hs⟩ := pushedMetrics_has_value ρ family
      ((suppliedLabels parsed).insert "device_id" D) parsed.Value
    rw [hval parsed hdec] at hs
    exact ⟨rfl, _, AList.lookup_insert _, o, ho, hs⟩

/-- Witness for the amended C9: the payload `{"labels":{"a":"1"}}`. -/
theorem push_without_value_is_push_of_zero_witness :
    (∀ kv ∈ [("labels", Json.obj [("a", .str "1")])],
      resolveField UnicodeTables.ascii ["labels", "value"] kv.1 ≠ some "value") ∧
    (∀ parsed, json_Unmarshal_MetricPush UnicodeTables.ascii
        (some (.obj [("labels", .obj [("a", .str "1")])])) = .ok parsed → parsed.Value = 0) ∧
    (∀ topic, metricsPushFn UnicodeTables.ascii RangeOrder.listed sampleRegistry topic
        (some (.obj [("labels", .obj [("a", .str "1")])])) =
      metricsPushFn UnicodeTables.ascii RangeOrder.listed sampleRegistry topic
        (some (.obj ([("labels", .obj [("a", .str "1")])] ++ [("value", .num (some 0))])))) ∧
    (∀ (D M : String) (parsed : MetricPush) (family : MetricFamily),
      IsSegment D → IsSegment M →
      json_Unmarshal_MetricPush UnicodeTables.ascii
        (some (.obj [("labels", .obj [("a", .str "1")])])) = .ok parsed →
      sampleRegistry.lookup M = some family →
      (metricsPushFn UnicodeTables.ascii RangeOrder.listed sampleRegistry (pushTopic D M)
        (some (.obj [("labels", .obj [("a", .str "1")])]))).1 = none ∧
      ∃ family' : MetricFamily,
        (metricsPushFn UnicodeTables.ascii RangeOrder.listed sampleRegistry (pushTopic D M)
          (some (.obj [("labels", .obj [("a", .str "1")])]))).2.lookup M = some family' ∧
        ∃ o ∈ family'.Metric, slotOf family'.Typ o = some 0) :=
  ⟨by decide,
    push_without_value_is_push_of_zero UnicodeTables.ascii RangeOrder.listed sampleRegistry
      [("labels", .obj [("a", .str "1")])] (by decide)⟩

/-! ## C10 -/

/-- The define handler touches the registry only between `Lock` and the
deferred `Unlock`. -/
theorem metricsDefineFnEvents_disciplined (U : UnicodeTables) (reg : Registry)
    (topic : String) (payload : Option Json) :
    lockDisciplined .no (metricsDefineFnEvents U reg topic payload) = true := by
  unfold metricsDefineFnEvents
  cases json_Unmarshal_MetricDefinition U payload with
  | error e => rfl
  | ok parsed =>
    simp only []
    split_ifs
    · rfl
    · cases reg.lookup _ <;> cases parsed.Typ with
      | none => rfl
      | some t => simp only []; cases parseMetricType (ToUpper U t) <;> rfl

theorem lockDisciplined_reads (n : List (Sigma fun _ : String => MetricFamily)) :
    lockDisciplined .shared (n.map (fun _ => RegistryEvent.read) ++ [.rUnlock]) = true := by
  induction n with
  | nil => rfl
  | cons a n ih =>
    have hne : (Held.shared != Held.no) = true := by decide
    rw [List.map_cons, List.cons_append]
    unfold lockDisciplined
    rw [ih, hne]
    rfl

/-- The `/metrics` handler reads the registry only between `RLock` and the
deferred `RUnlock`. -/
theorem metricsEndpointEvents_disciplined (reg : Registry) :
    lockDisciplined .no (metricsEndpointEvents reg) = true := by
  have hne : (Held.shared != Held.no) = true := by decide
  have h := lockDisciplined_reads reg.entries
  unfold metricsEndpointEvents
  show lockDisciplined .no (.rLock :: .read ::
    (reg.entries.map (fun _ => RegistryEvent.read) ++ [.rUnlock])) = true
  unfold lockDisciplined
  unfold lockDisciplined
  rw [h, hne]
  rfl

/-- Every push that gets as far as line 84 reads the registry map there, before
`Lock` is called. -/
theorem metricsPushFnEvents_head (U : UnicodeTables) (reg : Registry) (topic : String)
    (payload : Option Json) (parsed : MetricPush) (parsedTopic : String × String × String)
    (hdec : json_Unmarshal_MetricPush U payload = .ok parsed)
    (htop : deviceIdMetricNameRegex topic = some parsedTopic) :
    (metricsPushFnEvents U reg topic payload).head? = some .read ∧
    lockDisciplined .no (metricsPushFnEvents U reg topic payload) = false := by
  unfold metricsPushFnEvents
  rw [hdec]
  simp only []
  rw [htop]
  simp only [List.head?_cons, lockDisciplined, true_and]
  rfl

/-- The push handler takes the lock exactly on the calls that succeed. -/
theorem metricsPushFnEvents_lock (U : UnicodeTables) (ρ : RangeOrder) (reg : Registry)
    (topic : String) (payload : Option Json) :
    RegistryEvent.lock ∈ metricsPushFnEvents U reg topic payload ↔
      (metricsPushFn U ρ reg topic payload).1 = none := by
  unfold metricsPushFnEvents metricsPushFn
  cases json_Unmarshal_MetricPush U payload with
  | error e => simp
  | ok parsed =>
    simp only []
    cases deviceIdMetricNameRegex topic with
    | none => simp
    | some p =>
      simp only []
      cases reg.lookup p.2.2 with
      | none => simp
      | some family => simp

/-- C10, as the code has it. The define handler and the metrics endpoint touch
the registry only while they hold the lock. The push handler does not: on a
push to the defined metric its first event is the lookup of the registry map
at line 84 and `Lock` comes second, so its events are not lock-disciplined;
on a push to an unknown metric it reads the map and never takes the lock. -/
theorem push_reads_registry_before_lock :
    metricsPushFnEvents UnicodeTables.ascii sampleRegistry (pushTopic "dev1" "temp")
        (samplePushAB 5) =
      [.read, .lock, .read, .read, .read, .write, .read, .write, .unlock] ∧
    lockDisciplined .no (metricsPushFnEvents UnicodeTables.ascii sampleRegistry
      (pushTopic "dev1" "temp") (samplePushAB 5)) = false ∧
    metricsPushFnEvents UnicodeTables.ascii ∅ (pushTopic "dev1" "temp") (samplePushAB 5) =
      [.read] ∧
    lockDisciplined .no (metricsDefineFnEvents UnicodeTables.ascii ∅
      (defineTopic "dev1" "temp") (sampleDefine "gauge")) = true ∧
    lockDisciplined .no (metricsEndpointEvents sampleRegistry) = true := by
  decide


/-! ## C11 -/

/-- A define that supplies no type token succeeds and leaves the type and the
observations of an existing family as they were. -/
theorem define_without_type_keeps_type (U : UnicodeTables) (reg : Registry) (D M : String)
    (payload : Option Json) (parsed : MetricDefinition) (family : MetricFamily)
    (hD : IsSegment D) (hM : IsSegment M)
    (hdec : json_Unmarshal_MetricDefinition U payload = .ok parsed)
    (ht : parsed.Typ = none) (hfam : reg.lookup M = some family) :
    (metricsDefineFn U reg (defineTopic D M) payload).1 = none ∧
    ∃ family' : MetricFamily,
      (metricsDefineFn U reg (defineTopic D M) payload).2.lookup M = some family' ∧
      family'.Typ = family.Typ ∧ family'.Metric = family.Metric := by
  rw [metricsDefineFn_of_topic U reg _ payload parsed _ D M hdec (regex_defineTopic D M hD hM)]
  simp only [ht, hfam, Option.getD]
  exact ⟨trivial, _, AList.lookup_insert _, rfl, rfl⟩

/-- A define whose type token is not an enum name fails and leaves the family
without a type: line 54 stores the nil result of `parseMetricType` in the
`Type` field before the error is looked at. -/
theorem failed_define_clears_type (U : UnicodeTables) (reg : Registry) (D M : String)
    (payload : Option Json) (parsed : MetricDefinition) (t : String)
    (hD : IsSegment D) (hM : IsSegment M)
    (hdec : json_Unmarshal_MetricDefinition U payload = .ok parsed)
    (ht : parsed.Typ = some t) (hbad : MetricType_value (ToUpper U t) = none) :
    (metricsDefineFn U reg (defineTopic D M) payload).1 =
      some (.unknownMetricType (ToUpper U t)) ∧
    ∃ family' : MetricFamily,
      (metricsDefineFn U reg (defineTopic D M) payload).2.lookup M = some family' ∧
      family'.Typ = none ∧ family'.Metric = ((reg.lookup M).getD {}).Metric := by
  rw [metricsDefineFn_of_topic U reg _ payload parsed _ D M hdec (regex_defineTopic D M hD hM)]
  simp only [ht, hbad]
  exact ⟨trivial, _, AList.lookup_insert _, rfl, rfl⟩

/-- C11, as the code has it. Family `temp` has type gauge. A define without a
type token succeeds, the type stays gauge and the next push writes the gauge
slot. A define with the unrecognized token `bogus` fails with the
unknown-metric-type error, but the family is left without a type, and the
next push of 5 writes the untyped slot and leaves the gauge slot empty. -/
theorem failed_define_resets_type :
    (sampleRegistry.lookup "temp").map (fun f => f.Typ) = some (some .GAUGE) ∧
    ((defineThenPush UnicodeTables.ascii RangeOrder.listed sampleRegistry "dev1" "temp"
        sampleDefineNoType (samplePushAB 5)).1 = none ∧
      ((metricsDefineFn UnicodeTables.ascii sampleRegistry (defineTopic "dev1" "temp")
        sampleDefineNoType).2.lookup "temp").map (fun f => f.Typ) = some (some .GAUGE) ∧
      ((defineThenPush UnicodeTables.ascii RangeOrder.listed sampleRegistry "dev1" "temp"
        sampleDefineNoType (samplePushAB 5)).2.2.lookup "temp").map
          (fun f => f.Metric.map fun m => (m.Gauge, m.Counter, m.Untyped)) =
        some [(some 5, none, none)]) ∧
    ((defineThenPush UnicodeTables.ascii RangeOrder.listed sampleRegistry "dev1" "temp"
        sampleRedefine (samplePushAB 5)).1 = some (.unknownMetricType "BOGUS") ∧
      ((metricsDefineFn UnicodeTables.ascii sampleRegistry (defineTopic "dev1" "temp")
        sampleRedefine).2.lookup "temp").map (fun f => f.Typ) = some none ∧
      (defineThenPush UnicodeTables.ascii RangeOrder.listed sampleRegistry "dev1" "temp"
        sampleRedefine (samplePushAB 5)).2.1 = none ∧
      ((defineThenPush UnicodeTables.ascii RangeOrder.listed sampleRegistry "dev1" "temp"
        sampleRedefine (samplePushAB 5)).2.2.lookup "temp").map
          (fun f => f.Metric.map fun m => (m.Gauge, m.Counter, m.Untyped)) =
        some [(none, none, some 5)]) := by
  decide

end MqttIotExporter
